import Mathlib

/-!
Verification of the cubeland chunk subsystem (`src/cubeland/chunk.rs`).

The development shallowly embeds the data model and the three algorithms the
specification describes: the layered-noise terrain generator (`terrain_gen`),
the greedy mesher (`mesh_gen` with `expand_face` / `run_length`), and the
bounded chunk cache (`ChunkLoader::load`).

Modelling conventions:
* `CHUNK_SIZE` and `VISIBLE_RADIUS` are configuration constants defined
  outside this file's source; they appear as explicit parameters `S` and `R`.
* `f64`/`f32` arithmetic is modelled over `ℚ`.  All float values reaching the
  mesher are small integers, so this is exact there.  The two external float
  functions the terrain generator calls — the Perlin noise sampler from the
  `noise` crate and `std::num::pow` — are modelled as oracle parameters
  `P : ℕ → ℚ → ℚ → ℚ` (seed, two scaled world coordinates) and
  `powf : ℚ → ℚ → ℚ`.
* `uint` (`usize`) values are `ℕ`; the one place where unsigned wrap-around
  matters (`height - 2` with `height = 1`) uses an explicit `% 2 ^ 64`.
* The `HashMap` cache is an association list with unique keys; OpenGL buffer
  handles are replaced by the geometry arrays themselves (the upload boundary
  is external to the subsystem).  Wall-clock reads (`precise_time_ns`) become
  an explicit timestamp argument.
* `Mesh`/`MeshState` additionally record the list of emitted quads (seed
  cell, extents, block type, and the mask at emission time) as a ghost field;
  geometry pushes and the ghost record happen in the same step.
-/

namespace Cubeland

/-- `enum BlockType` with `repr(u8)` values 0..4. -/
inductive BlockType where
  | BlockAir
  | BlockGrass
  | BlockStone
  | BlockDirt
  | BlockWater
deriving DecidableEq, Repr

open BlockType

/-- `blocktype as f32` (the u8 discriminant, cast to float). -/
def BlockType.toF : BlockType → ℚ
  | BlockAir => 0
  | BlockGrass => 1
  | BlockStone => 2
  | BlockDirt => 3
  | BlockWater => 4

/-- `struct Block { blocktype: BlockType }` -/
structure Block where
  blocktype : BlockType
deriving DecidableEq, Repr

/-- `Block::is_opaque`: `self.blocktype != BlockAir`. -/
def Block.is_opaque (b : Block) : Bool := decide (b.blocktype ≠ BlockAir)

/-- `struct Map`: the `CHUNK_SIZE³` block array.  Addressed only at indices
below `S`; modelled as a total function. -/
structure Map where
  blocks : ℕ → ℕ → ℕ → Block

/-- `Map::index`: bounds-checked lookup, `None` out of `[0, CHUNK_SIZE)³`. -/
def Map.index (S : ℕ) (m : Map) (x y z : ℤ) : Option Block :=
  if x < 0 ∨ (S : ℤ) ≤ x ∨ y < 0 ∨ (S : ℤ) ≤ y ∨ z < 0 ∨ (S : ℤ) ≤ z then
    none
  else
    some (m.blocks x.toNat y.toNat z.toNat)

/-- `fn block_exists`: any negative `y` counts as solid; in-range cells use
`is_opaque`; all other out-of-range coordinates are absent. -/
def block_exists (S : ℕ) (m : Map) (x y z : ℤ) : Bool :=
  if y < 0 then
    true
  else
    match Map.index S m x y z with
    | some b => b.is_opaque
    | none => false

/-- Pointwise update of the block array (a single `map.blocks[x][y][z] = b`). -/
def Map.set (m : Map) (x y z : ℕ) (b : Block) : Map :=
  ⟨fun a c d => if a = x ∧ c = y ∧ d = z then b else m.blocks a c d⟩

/-! ### Terrain generation -/

/-- `f64 as int`: truncation toward zero. -/
def ratTrunc (x : ℚ) : ℤ := if 0 ≤ x then ⌊x⌋ else ⌈x⌉

/-- `std::num::clamp(value, mn, mx)` on `int`. -/
def clampI (v mn mx : ℤ) : ℤ := if v > mx then mx else if v < mn then mn else v

/-- World coordinate `(chunk + block) as f64`. -/
def worldQ (c : ℤ) (b : ℕ) : ℚ := ((c + (b : ℤ) : ℤ) : ℚ)

/-- `perlin1.gen([wx * 0.07, wz * 0.04])`, from the generator seeded `seed`. -/
def noise1 (P : ℕ → ℚ → ℚ → ℚ) (seed : ℕ) (cx cz : ℤ) (bx bz : ℕ) : ℚ :=
  P seed (worldQ cx bx * (7/100)) (worldQ cz bz * (4/100))

/-- `perlin2.gen([wx * 0.05, wz * 0.05])`, from the generator seeded `seed*7`. -/
def noise2 (P : ℕ → ℚ → ℚ → ℚ) (seed : ℕ) (cx cz : ℤ) (bx bz : ℕ) : ℚ :=
  P (seed * 7) (worldQ cx bx * (5/100)) (worldQ cz bz * (5/100))

/-- `perlin3.gen([wx * 0.005, wz * 0.005])`, from the generator seeded `seed*13`. -/
def noise3 (P : ℕ → ℚ → ℚ → ℚ) (seed : ℕ) (cx cz : ℤ) (bx bz : ℕ) : ℚ :=
  P (seed * 13) (worldQ cx bx * (5/1000)) (worldQ cz bz * (5/1000))

/-- `perlin4.gen([wx * 0.001, wz * 0.001])`, from the generator seeded `seed*17`. -/
def noise4 (P : ℕ → ℚ → ℚ → ℚ) (seed : ℕ) (cx cz : ℤ) (bx bz : ℕ) : ℚ :=
  P (seed * 17) (worldQ cx bx * (1/1000)) (worldQ cz bz * (1/1000))

/-- The column height computed in `terrain_gen`:
`clamp((base_height + noise4*10 + base_variance*pow(noise3+1, 2.5)*noise1) as int,
       1, CHUNK_SIZE as int - 1) as uint`. -/
def terrain_height (P : ℕ → ℚ → ℚ → ℚ) (powf : ℚ → ℚ → ℚ) (S : ℕ) (seed : ℕ)
    (cx cz : ℤ) (bx bz : ℕ) : ℕ :=
  (clampI
    (ratTrunc
      (15 + noise4 P seed cx cz bx bz * 10 +
        10 * powf (noise3 P seed cx cz bx bz + 1) (5/2) * noise1 P seed cx cz bx bz))
    1 ((S : ℤ) - 1)).toNat

/-- `dirt_height = (4.0 + noise2 * 8.0) as uint` (float-to-uint cast:
truncation; a negative operand would be undefined behaviour in the source,
modelled as 0 here). -/
def dirt_height (P : ℕ → ℚ → ℚ → ℚ) (seed : ℕ) (cx cz : ℤ) (bx bz : ℕ) : ℕ :=
  (ratTrunc (4 + noise2 P seed cx cz bx bz * 8)).toNat

/-- The block type written at height `y` of a solid column (`y < height`).
`height - 2` is `uint` subtraction, which wraps modulo `2^64`; with
`height = 1` the test `y < height - 2` is therefore true. -/
def column_blocktype (P : ℕ → ℚ → ℚ → ℚ) (powf : ℚ → ℚ → ℚ) (S : ℕ) (seed : ℕ)
    (cx cz : ℤ) (bx bz y : ℕ) : BlockType :=
  let height := terrain_height P powf S seed cx cz bx bz
  if height ≤ 20 ∧ height ≤ y + dirt_height P seed cx cz bx bz then
    if y < (height + 2 ^ 64 - 2) % 2 ^ 64 then BlockDirt else BlockGrass
  else
    BlockStone

/-- The body of `terrain_gen`'s per-column loop: fill `[0, height)` with the
stone/dirt/grass profile, then `[height, water_height)` with water
(`water_height = 10`). -/
def fillColumn (P : ℕ → ℚ → ℚ → ℚ) (powf : ℚ → ℚ → ℚ) (S : ℕ) (seed : ℕ)
    (cx cz : ℤ) (m : Map) (bx bz : ℕ) : Map :=
  let height := terrain_height P powf S seed cx cz bx bz
  let m1 := (List.range height).foldl
    (fun acc y => acc.set bx y bz ⟨column_blocktype P powf S seed cx cz bx bz y⟩) m
  (List.range' height (10 - height)).foldl
    (fun acc y => acc.set bx y bz ⟨BlockWater⟩) m1

/-- `fn terrain_gen`: iterate over all columns of an initially all-air map. -/
def terrain_gen (P : ℕ → ℚ → ℚ → ℚ) (powf : ℚ → ℚ → ℚ) (S : ℕ) (seed : ℕ)
    (cx cz : ℤ) : Map :=
  (List.range S).foldl
    (fun acc bx =>
      (List.range S).foldl (fun acc2 bz => fillColumn P powf S seed cx cz acc2 bx bz) acc)
    ⟨fun _ _ _ => ⟨BlockAir⟩⟩

/-- Pointwise description of a generated column (proved equal to
`terrain_gen`'s result below). -/
def terrain_block (P : ℕ → ℚ → ℚ → ℚ) (powf : ℚ → ℚ → ℚ) (S : ℕ) (seed : ℕ)
    (cx cz : ℤ) (bx bz y : ℕ) : BlockType :=
  if y < terrain_height P powf S seed cx cz bx bz then
    column_blocktype P powf S seed cx cz bx bz y
  else if y < 10 then BlockWater
  else BlockAir

/-- What one pass of `fillColumn` leaves at height `yy` of its column, as a
function of the previous content `old` (cells at `max(height, 10)` and above
are untouched). -/
def fillVal (P : ℕ → ℚ → ℚ → ℚ) (powf : ℚ → ℚ → ℚ) (S : ℕ) (seed : ℕ)
    (cx cz : ℤ) (bx bz yy : ℕ) (old : Block) : Block :=
  if yy < terrain_height P powf S seed cx cz bx bz then
    ⟨column_blocktype P powf S seed cx cz bx bz yy⟩
  else if yy < 10 then ⟨BlockWater⟩
  else old

/-- The height formula with the specification's `round` in place of the
source's truncating cast — this follows the spec's words, for comparison with
`terrain_height` (translated from the source). -/
def terrain_height_round (P : ℕ → ℚ → ℚ → ℚ) (powf : ℚ → ℚ → ℚ) (S : ℕ) (seed : ℕ)
    (cx cz : ℤ) (bx bz : ℕ) : ℕ :=
  (clampI
    (round
      (15 + noise4 P seed cx cz bx bz * 10 +
        10 * powf (noise3 P seed cx cz bx bz + 1) (5/2) * noise1 P seed cx cz bx bz))
    1 ((S : ℤ) - 1)).toNat

/-! ### The face table and the greedy mesher -/

/-- Componentwise `Vec3<uint>` addition (`add_v`). -/
def vadd (a b : ℕ × ℕ × ℕ) : ℕ × ℕ × ℕ := (a.1 + b.1, a.2.1 + b.2.1, a.2.2 + b.2.2)

/-- `Vec3<uint>` scalar multiplication (`mul_s`). -/
def vmul (a : ℕ × ℕ × ℕ) (s : ℕ) : ℕ × ℕ × ℕ := (a.1 * s, a.2.1 * s, a.2.2 * s)

/-- Componentwise `Vec3<f32>` addition. -/
def qadd (a b : ℚ × ℚ × ℚ) : ℚ × ℚ × ℚ := (a.1 + b.1, a.2.1 + b.2.1, a.2.2 + b.2.2)

/-- Componentwise `Vec3<f32>` multiplication (`mul_v`). -/
def qmul (a b : ℚ × ℚ × ℚ) : ℚ × ℚ × ℚ := (a.1 * b.1, a.2.1 * b.2.1, a.2.2 * b.2.2)

/-- A `Vec3<uint>` cast to `Vec3<f32>`. -/
def vQ (v : ℕ × ℕ × ℕ) : ℚ × ℚ × ℚ := ((v.1 : ℚ), (v.2.1 : ℚ), (v.2.2 : ℚ))

/-- A face normal (stored as ±unit `Vec3<f32>` in the source, held as integers
here) cast to `Vec3<f32>`. -/
def normalQ (n : ℤ × ℤ × ℤ) : ℚ × ℚ × ℚ := ((n.1 : ℚ), (n.2.1 : ℚ), (n.2.2 : ℚ))

/-- `struct Face`: orientation index, outward normal, sweep basis `di`/`dj`/`dk`
and the quad's four template vertices. -/
structure Face where
  index : ℕ
  normal : ℤ × ℤ × ℤ
  di : ℕ × ℕ × ℕ
  dj : ℕ × ℕ × ℕ
  dk : ℕ × ℕ × ℕ
  vertices : List (ℚ × ℚ × ℚ)
deriving DecidableEq

/-- `static faces : [Face, ..6]` (front, back, right, left, top, bottom). -/
def faces : List Face := [
  { index := 0, normal := (0, 0, 1), di := (0, 0, 1), dj := (1, 0, 0), dk := (0, 1, 0),
    vertices := [(0, 0, 1), (1, 0, 1), (0, 1, 1), (1, 1, 1)] },
  { index := 1, normal := (0, 0, -1), di := (0, 0, 1), dj := (1, 0, 0), dk := (0, 1, 0),
    vertices := [(1, 0, 0), (0, 0, 0), (1, 1, 0), (0, 1, 0)] },
  { index := 2, normal := (1, 0, 0), di := (1, 0, 0), dj := (0, 1, 0), dk := (0, 0, 1),
    vertices := [(1, 0, 1), (1, 0, 0), (1, 1, 1), (1, 1, 0)] },
  { index := 3, normal := (-1, 0, 0), di := (1, 0, 0), dj := (0, 1, 0), dk := (0, 0, 1),
    vertices := [(0, 0, 0), (0, 0, 1), (0, 1, 0), (0, 1, 1)] },
  { index := 4, normal := (0, 1, 0), di := (0, 1, 0), dj := (1, 0, 0), dk := (0, 0, 1),
    vertices := [(0, 1, 1), (1, 1, 1), (0, 1, 0), (1, 1, 0)] },
  { index := 5, normal := (0, -1, 0), di := (0, 1, 0), dj := (1, 0, 0), dk := (0, 0, 1),
    vertices := [(0, 0, 0), (1, 0, 0), (0, 0, 1), (1, 0, 1)] }]

/-- `static face_elements : [GLuint, ..6] = [0, 1, 2, 3, 2, 1]`. -/
def face_elements : List ℕ := [0, 1, 2, 3, 2, 1]

/-- `BlockBitmap::index`: the linear index into the bit set. -/
def bbIndex (S x y z : ℕ) : ℕ := x * S * S + y * S + z

/-- `BlockBitmap::contains`. -/
def bbContains (S : ℕ) (s : Finset ℕ) (x y z : ℕ) : Bool := decide (bbIndex S x y z ∈ s)

/-- `BlockBitmap::insert`. -/
def bbInsert (S : ℕ) (s : Finset ℕ) (x y z : ℕ) : Finset ℕ := insert (bbIndex S x y z) s

/-- `BlockBitmap::remove`. -/
def bbRemove (S : ℕ) (s : Finset ℕ) (x y z : ℕ) : Finset ℕ := s.erase (bbIndex S x y z)

/-- The triples `(a, b, c)` of a triply nested `0..CHUNK_SIZE` loop, in scan
order. -/
def allTriples (S : ℕ) : List (ℕ × ℕ × ℕ) :=
  (List.range S).flatMap fun a =>
    (List.range S).flatMap fun b =>
      (List.range S).map fun c => (a, b, c)

/-- The cell visited by the merge scan at loop indices `(i, j, k)`:
`di*i + dj*j + dk*k`. -/
def cellOf (face : Face) (t : ℕ × ℕ × ℕ) : ℕ × ℕ × ℕ :=
  vadd (vadd (vmul face.di t.1) (vmul face.dj t.2.1)) (vmul face.dk t.2.2)

/-- One step of `mesh_gen`'s exposure pass: skip air blocks and blocks whose
neighbour along the face normal exists, otherwise mark the face. -/
def exposure_step (S : ℕ) (m : Map) (face : Face) (mask : Finset ℕ)
    (t : ℕ × ℕ × ℕ) : Finset ℕ :=
  if (m.blocks t.1 t.2.1 t.2.2).blocktype = BlockAir then
    mask
  else if block_exists S m ((t.1 : ℤ) + face.normal.1) ((t.2.1 : ℤ) + face.normal.2.1)
      ((t.2.2 : ℤ) + face.normal.2.2) then
    mask
  else
    bbInsert S mask t.1 t.2.1 t.2.2

/-- The `unmeshed_faces` bitmap after the exposure pass. -/
def exposure_mask (S : ℕ) (m : Map) (face : Face) : Finset ℕ :=
  (allTriples S).foldl (exposure_step S m face) ∅

/-- The loop body of `run_length`, counting successful steps.  The source loop
is unbounded but stops no later than when the stepped coordinate reaches `S`
(where `Map::index` returns `None`), so fuel `S` — one unit per step from an
in-range start along a unit axis vector — is exact. -/
def run_length_go (S : ℕ) (m : Map) (mask : Finset ℕ) (bt : BlockType) :
    ℕ → ℕ × ℕ × ℕ → ℕ × ℕ × ℕ → ℕ
  | 0, _, _ => 0
  | fuel + 1, p, dp =>
    let q := vadd p dp
    if bbContains S mask q.1 q.2.1 q.2.2 then
      match Map.index S m (q.1 : ℤ) (q.2.1 : ℤ) (q.2.2 : ℤ) with
      | some b =>
        if b.blocktype = bt then 1 + run_length_go S m mask bt fuel q dp else 0
      | none => 0
    else 0

/-- `fn run_length`: the maximal run starting at `p` along `dp` of cells that
are still masked and share `p`'s block type. -/
def run_length (S : ℕ) (m : Map) (mask : Finset ℕ) (p dp : ℕ × ℕ × ℕ) : ℕ :=
  1 + run_length_go S m mask (m.blocks p.1 p.2.1 p.2.2).blocktype S p dp

/-- `fn expand_face`: extent along `dk`, then the minimum `dj` run over every
`dk` offset, combined into the quad's cell extents. -/
def expand_face (S : ℕ) (m : Map) (mask : Finset ℕ) (face : Face)
    (p : ℕ × ℕ × ℕ) : ℕ × ℕ × ℕ :=
  let len_k := run_length S m mask p face.dk
  let len_j :=
    (((List.range len_k).map fun k =>
        run_length S m mask (vadd p (vmul face.dk k)) face.dj).min?).getD 1
  vadd (vadd (1, 1, 1) (vmul face.dk (len_k - 1))) (vmul face.dj (len_j - 1))

/-- Ghost record of one emitted quad: the face, the seed cell, the extents
returned by `expand_face`, the seed block type, and the mask at emission. -/
structure Quad where
  face : Face
  p : ℕ × ℕ × ℕ
  dim : ℕ × ℕ × ℕ
  bt : BlockType
  maskAt : Finset ℕ
deriving DecidableEq

/-- The cells covered by an emitted quad (the cells cleared from the mask). -/
def Quad.cells (q : Quad) : Finset (ℕ × ℕ × ℕ) :=
  (Finset.range q.dim.1 ×ˢ Finset.range q.dim.2.1 ×ˢ Finset.range q.dim.2.2).image
    (fun d => vadd q.p d)

/-- The geometry arrays `mesh_gen` accumulates, plus the ghost quad list. -/
structure MeshState where
  vertices : List (ℚ × ℚ × ℚ)
  normals : List (ℚ × ℚ × ℚ)
  blocktypes : List ℚ
  elements : List ℕ
  quads : List Quad

/-- The offsets of the triply nested mask-clearing loop over `dim`. -/
def boxTriples (dim : ℕ × ℕ × ℕ) : List (ℕ × ℕ × ℕ) :=
  (List.range dim.1).flatMap fun dx =>
    (List.range dim.2.1).flatMap fun dy =>
      (List.range dim.2.2).map fun dz => (dx, dy, dz)

/-- The geometry pushed when one quad is emitted at seed cell `v`: four
vertices (the face template scaled by the rectangle's extents and translated
by the cell and chunk positions), a repeated normal and block-type id, the six
element indices offset by the quad's vertex base, and the ghost quad record. -/
def emitState (S : ℕ) (cx cz : ℤ) (m : Map) (face : Face) (st : MeshState)
    (mask : Finset ℕ) (v : ℕ × ℕ × ℕ) : MeshState :=
  let block := m.blocks v.1 v.2.1 v.2.2
  let dim := expand_face S m mask face v
  let vertex_offset := st.vertices.length
  { vertices := st.vertices ++ face.vertices.map
      (fun vt => qadd (qadd (qmul vt (vQ dim)) (vQ v)) ((cx : ℚ), 0, (cz : ℚ))),
    normals := st.normals ++ face.vertices.map (fun _ => normalQ face.normal),
    blocktypes := st.blocktypes ++ face.vertices.map (fun _ => block.blocktype.toF),
    elements := st.elements ++ face_elements.map (fun e => vertex_offset + e),
    quads := st.quads ++ [⟨face, v, dim, block.blocktype, mask⟩] }

/-- One iteration of `mesh_gen`'s merge scan: if the scanned cell is still
masked, expand it to a maximal rectangle, clear the rectangle from the mask
and emit the quad (the source computes `dim` once; it is repeated here purely
for factoring, the value is identical). -/
def mergeStep (S : ℕ) (cx cz : ℤ) (m : Map) (face : Face)
    (acc : MeshState × Finset ℕ) (t : ℕ × ℕ × ℕ) : MeshState × Finset ℕ :=
  let v := cellOf face t
  let st := acc.1
  let mask := acc.2
  if bbContains S mask v.1 v.2.1 v.2.2 then
    (emitState S cx cz m face st mask v,
     (boxTriples (expand_face S m mask face v)).foldl
       (fun mk d => bbRemove S mk (v.1 + d.1) (v.2.1 + d.2.1) (v.2.2 + d.2.2)) mask)
  else
    acc

/-- The finished mesh: the four geometry arrays (the upload boundary is
external; the arrays stand in for the GL buffer handles), the per-orientation
`face_ranges`, and the ghost quad list. -/
structure Mesh where
  vertices : List (ℚ × ℚ × ℚ)
  normals : List (ℚ × ℚ × ℚ)
  blocktypes : List ℚ
  elements : List ℕ
  face_ranges : List (ℕ × ℕ)
  quads : List Quad

/-- `mesh_gen`'s per-face work: exposure pass, merge scan, and recording of
this orientation's `(start, count)` element range. -/
def mesh_face (S : ℕ) (cx cz : ℤ) (m : Map)
    (acc : MeshState × List (ℕ × ℕ)) (face : Face) : MeshState × List (ℕ × ℕ) :=
  let num_elements_start := acc.1.elements.length
  let st2 := ((allTriples S).foldl (mergeStep S cx cz m face)
    (acc.1, exposure_mask S m face)).1
  (st2, acc.2.set face.index (num_elements_start, st2.elements.length - num_elements_start))

/-- `fn mesh_gen`. -/
def mesh_gen (S : ℕ) (cx cz : ℤ) (m : Map) : Mesh :=
  let r := faces.foldl (mesh_face S cx cz m) (⟨[], [], [], [], []⟩, List.replicate 6 (0, 0))
  { vertices := r.1.vertices, normals := r.1.normals, blocktypes := r.1.blocktypes,
    elements := r.1.elements, face_ranges := r.2, quads := r.1.quads }

/-! ### Chunks and the chunk cache -/

/-- `struct Chunk` (the timestamp comes from the caller's clock oracle). -/
structure Chunk where
  x : ℤ
  z : ℤ
  map : Map
  mesh : Mesh
  used_time : ℕ

/-- A chunk's content apart from its timestamp. -/
def Chunk.data (c : Chunk) : ℤ × ℤ × Map × Mesh := (c.x, c.z, c.map, c.mesh)

/-- `fn chunk_gen`. -/
def chunk_gen (P : ℕ → ℚ → ℚ → ℚ) (powf : ℚ → ℚ → ℚ) (S : ℕ) (seed : ℕ)
    (cx cz : ℤ) (t : ℕ) : Chunk :=
  let m := terrain_gen P powf S seed cx cz
  { x := cx, z := cz, map := m, mesh := mesh_gen S cx cz m, used_time := t }

/-- `static MAX_CHUNKS : uint = (VISIBLE_RADIUS*2)*(VISIBLE_RADIUS*2)*2`. -/
def MAX_CHUNKS (R : ℕ) : ℕ := R * 2 * (R * 2) * 2

/-- `struct ChunkLoader`; the `HashMap` cache is an association list with
unique keys. -/
structure ChunkLoader where
  seed : ℕ
  cache : List ((ℤ × ℤ) × Chunk)

/-- `ChunkLoader::new`. -/
def ChunkLoader.new (seed : ℕ) : ChunkLoader := ⟨seed, []⟩

/-- `HashMap::insert`: replace any entry with the same key. -/
def insertEntry (k : ℤ × ℤ) (c : Chunk) (l : List ((ℤ × ℤ) × Chunk)) :
    List ((ℤ × ℤ) × Chunk) :=
  (k, c) :: l.filter (fun e => decide (e.1 ≠ k))

/-- `cache.iter().min_by(|(_, chunk)| chunk.used_time)`: an entry with the
globally smallest `used_time` (iteration order of the source `HashMap` is
unspecified; this model keeps the first minimal entry). -/
def findMinEntry (l : List ((ℤ × ℤ) × Chunk)) : Option ((ℤ × ℤ) × Chunk) :=
  l.foldl
    (fun acc e =>
      match acc with
      | none => some e
      | some a => if e.2.used_time < a.2.used_time then some e else acc)
    none

/-- The eviction loop of `load`: while over capacity, remove the entry whose
`used_time` is smallest.  Each iteration removes one entry, so fuel equal to
the list length is exact. -/
def evictLoop (R : ℕ) : ℕ → List ((ℤ × ℤ) × Chunk) → List ((ℤ × ℤ) × Chunk)
  | 0, l => l
  | fuel + 1, l =>
    if MAX_CHUNKS R < l.length then
      match findMinEntry l with
      | some e => evictLoop R fuel (l.eraseP (fun x => decide (x.1 = e.1)))
      | none => l
    else l

/-- The eviction loop, with its exact fuel. -/
def evict (R : ℕ) (l : List ((ℤ × ℤ) × Chunk)) : List ((ℤ × ℤ) × Chunk) :=
  evictLoop R l.length l

/-- `ChunkLoader::load`: always regenerate, insert, then evict while over
capacity. -/
def ChunkLoader.load (P : ℕ → ℚ → ℚ → ℚ) (powf : ℚ → ℚ → ℚ) (S R : ℕ)
    (st : ChunkLoader) (cx cz : ℤ) (t : ℕ) : ChunkLoader :=
  let chunk := chunk_gen P powf S st.seed cx cz t
  ⟨st.seed, evict R (insertEntry (cx, cz) chunk st.cache)⟩

/-- Map lookup on the association-list cache. -/
def cacheLookup (l : List ((ℤ × ℤ) × Chunk)) (k : ℤ × ℤ) : Option Chunk :=
  (l.find? (fun e => decide (e.1 = k))).map (fun e => e.2)

/-! ### Verification helpers for the mesher -/

/-- The unit vector along `x`. -/
def exv : ℕ × ℕ × ℕ := (1, 0, 0)

/-- The unit vector along `y`. -/
def eyv : ℕ × ℕ × ℕ := (0, 1, 0)

/-- The unit vector along `z`. -/
def ezv : ℕ × ℕ × ℕ := (0, 0, 1)

/-- Well-formedness of a face's sweep basis: `(di, dj, dk)` is one of the six
permutations of the coordinate unit vectors, and the vertex template has four
entries.  Every entry of `faces` satisfies this. -/
def FaceWF (f : Face) : Prop :=
  ((f.di = exv ∧ f.dj = eyv ∧ f.dk = ezv) ∨ (f.di = exv ∧ f.dj = ezv ∧ f.dk = eyv) ∨
   (f.di = eyv ∧ f.dj = exv ∧ f.dk = ezv) ∨ (f.di = eyv ∧ f.dj = ezv ∧ f.dk = exv) ∨
   (f.di = ezv ∧ f.dj = exv ∧ f.dk = eyv) ∨ (f.di = ezv ∧ f.dj = eyv ∧ f.dk = exv)) ∧
  f.vertices.length = 4

/-- The length/shape invariant of the geometry arrays maintained by the merge
scan: normals, block types and vertices run in lockstep (four entries per
quad), and the element array consists of the six template indices per quad,
offset by the quad's vertex base. -/
def meshInv (st : MeshState) : Prop :=
  st.normals.length = st.vertices.length ∧
  st.blocktypes.length = st.vertices.length ∧
  st.vertices.length = 4 * st.quads.length ∧
  st.elements =
    (List.range st.quads.length).flatMap (fun q => face_elements.map (fun e => 4 * q + e))

/-- Uniformity of an emitted quad (claim C3): its face comes from the face
table, its recorded mask is part of that orientation's exposure mask, its
block type is the seed cell's, and every covered cell has the seed's block
type and was in the mask when the quad was emitted. -/
def QuadOK (S : ℕ) (m : Map) (q : Quad) : Prop :=
  q.face ∈ faces ∧
  q.maskAt ⊆ exposure_mask S m q.face ∧
  q.bt = (m.blocks q.p.1 q.p.2.1 q.p.2.2).blocktype ∧
  ∀ c ∈ q.cells,
    (m.blocks c.1 c.2.1 c.2.2).blocktype = (m.blocks q.p.1 q.p.2.1 q.p.2.2).blocktype ∧
    bbIndex S c.1 c.2.1 c.2.2 ∈ q.maskAt

/-! ### Concrete oracles and maps used in witnesses and counterexamples -/

/-- A noise oracle that is zero everywhere. -/
def trivialNoise : ℕ → ℚ → ℚ → ℚ := fun _ _ _ => 0

/-- A power oracle that is zero everywhere. -/
def trivialPow : ℚ → ℚ → ℚ := fun _ _ => 0

/-- Noise oracle for the height counterexample: the field seeded `17`
(`noise4` for `seed = 1`) returns `0.07`, all others `0`. -/
def cexNoise6 : ℕ → ℚ → ℚ → ℚ := fun s _ _ => if s = 17 then 7/100 else 0

/-- Power oracle for the height counterexample (its value is multiplied by a
zero noise sample, so any value works). -/
def cexPow6 : ℚ → ℚ → ℚ := fun _ _ => 0

/-- Noise oracle for the grass-layer counterexample: the fields seeded `1`
(`noise1`) and `17` (`noise4`) return `-1`, all others `0`. -/
def cexNoise7 : ℕ → ℚ → ℚ → ℚ := fun s _ _ => if s = 1 then -1 else if s = 17 then -1 else 0

/-- Power oracle for the grass-layer counterexample: `pow(0 + 1, 2.5) = 1`. -/
def cexPow7 : ℚ → ℚ → ℚ := fun _ _ => 1

/-- An all-stone map, used to instantiate hypotheses in witnesses. -/
def stoneMap : Map := ⟨fun _ _ _ => ⟨BlockStone⟩⟩

/-- The quad the mesher emits for the front orientation of a `1 × 1 × 1`
all-stone grid, used to instantiate hypotheses in witnesses. -/
def sampleQuad : Quad :=
  Quad.mk
    (Face.mk 0 (0, 0, 1) (0, 0, 1) (1, 0, 0) (0, 1, 0)
      [(0, 0, 1), (1, 0, 1), (0, 1, 1), (1, 1, 1)])
    (0, 0, 0) (1, 1, 1) BlockStone {0}

/-! ## Basic facts about the bitmap index and the scan order -/

theorem bbIndex_inj {S x y z x' y' z' : ℕ} (hy : y < S) (hz : z < S)
    (hy' : y' < S) (hz' : z' < S)
    (h : bbIndex S x y z = bbIndex S x' y' z') :
    x = x' ∧ y = y' ∧ z = z' := by
  have hS : 0 < S := lt_of_le_of_lt (Nat.zero_le z) hz
  have h' : S * (S * x + y) + z = S * (S * x' + y') + z' := by
    have e : ∀ a b c : ℕ, a * S * S + b * S + c = S * (S * a + b) + c := fun a b c => by ring
    simpa only [bbIndex, e] using h
  have hzz : z = z' := by
    have h2 := congrArg (fun n => n % S) h'
    simpa only [Nat.mul_add_mod, Nat.mod_eq_of_lt hz, Nat.mod_eq_of_lt hz'] using h2
  subst hzz
  have h2 : S * x + y = S * x' + y' :=
    Nat.eq_of_mul_eq_mul_left hS (Nat.add_right_cancel h')
  have hyy : y = y' := by
    have h3 := congrArg (fun n => n % S) h2
    simpa only [Nat.mul_add_mod, Nat.mod_eq_of_lt hy, Nat.mod_eq_of_lt hy'] using h3
  subst hyy
  exact ⟨Nat.eq_of_mul_eq_mul_left hS (Nat.add_right_cancel h2), rfl, rfl⟩

theorem mem_allTriples {S : ℕ} {t : ℕ × ℕ × ℕ} :
    t ∈ allTriples S ↔ t.1 < S ∧ t.2.1 < S ∧ t.2.2 < S := by
  obtain ⟨a, b, c⟩ := t
  simp only [allTriples, List.mem_flatMap, List.mem_map, List.mem_range, Prod.mk.injEq]
  constructor
  · rintro ⟨a', ha, b', hb, c', hc, rfl, rfl, rfl⟩
    exact ⟨ha, hb, hc⟩
  · rintro ⟨ha, hb, hc⟩
    exact ⟨a, ha, b, hb, c, hc, rfl, rfl, rfl⟩

/-! ## The exposure pass (claim C2) -/

theorem exposure_step_mem (S : ℕ) (m : Map) (face : Face) (mask : Finset ℕ)
    (t : ℕ × ℕ × ℕ) (n : ℕ) :
    n ∈ exposure_step S m face mask t ↔
      n ∈ mask ∨
        (¬ (m.blocks t.1 t.2.1 t.2.2).blocktype = BlockAir ∧
          block_exists S m ((t.1 : ℤ) + face.normal.1) ((t.2.1 : ℤ) + face.normal.2.1)
            ((t.2.2 : ℤ) + face.normal.2.2) = false ∧
          n = bbIndex S t.1 t.2.1 t.2.2) := by
  unfold exposure_step
  by_cases h1 : (m.blocks t.1 t.2.1 t.2.2).blocktype = BlockAir
  · simp [h1]
  · cases hbe : block_exists S m ((t.1 : ℤ) + face.normal.1)
        ((t.2.1 : ℤ) + face.normal.2.1) ((t.2.2 : ℤ) + face.normal.2.2) with
    | true => simp [h1, hbe]
    | false =>
      simp only [h1, hbe, if_neg, if_false, Bool.false_eq_true, bbInsert,
        Finset.mem_insert, not_false_iff, true_and]
      tauto

theorem exposure_fold_mem (S : ℕ) (m : Map) (face : Face) :
    ∀ (L : List (ℕ × ℕ × ℕ)) (init : Finset ℕ) (n : ℕ),
      (n ∈ L.foldl (exposure_step S m face) init ↔
        n ∈ init ∨ ∃ t ∈ L,
          ¬ (m.blocks t.1 t.2.1 t.2.2).blocktype = BlockAir ∧
          block_exists S m ((t.1 : ℤ) + face.normal.1) ((t.2.1 : ℤ) + face.normal.2.1)
            ((t.2.2 : ℤ) + face.normal.2.2) = false ∧
          n = bbIndex S t.1 t.2.1 t.2.2) := by
  intro L
  induction L with
  | nil => simp
  | cons t L ih =>
    intro init n
    rw [List.foldl_cons, ih]
    simp only [exposure_step_mem, List.mem_cons]
    constructor
    · rintro ((h | h) | ⟨u, hu, hc⟩)
      · exact Or.inl h
      · exact Or.inr ⟨t, Or.inl rfl, h⟩
      · exact Or.inr ⟨u, Or.inr hu, hc⟩
    · rintro (h | ⟨u, rfl | hu, hc⟩)
      · exact Or.inl (Or.inl h)
      · exact Or.inl (Or.inr hc)
      · exact Or.inr ⟨u, hu, hc⟩

/-- **C2.** A face is in the exposure mask iff the block is non-air and the
neighbour one step along the face normal does not exist; and `block_exists`
is true exactly on negative `y`, or in-range opaque (non-air) cells. -/
theorem c2_exposure_rule (S : ℕ) (m : Map) (face : Face) :
    (∀ x y z : ℕ, x < S → y < S → z < S →
      (bbIndex S x y z ∈ exposure_mask S m face ↔
        (m.blocks x y z).blocktype ≠ BlockAir ∧
          block_exists S m ((x : ℤ) + face.normal.1) ((y : ℤ) + face.normal.2.1)
            ((z : ℤ) + face.normal.2.2) = false)) ∧
    (∀ x y z : ℤ,
      block_exists S m x y z = true ↔
        (y < 0 ∨ (0 ≤ x ∧ x < (S : ℤ) ∧ 0 ≤ y ∧ y < (S : ℤ) ∧ 0 ≤ z ∧ z < (S : ℤ) ∧
          (m.blocks x.toNat y.toNat z.toNat).blocktype ≠ BlockAir))) := by
  constructor
  · intro x y z hx hy hz
    rw [exposure_mask, exposure_fold_mem]
    simp only [Finset.not_mem_empty, false_or]
    constructor
    · rintro ⟨t, ht, h1, h2, h3⟩
      have hb := mem_allTriples.1 ht
      obtain ⟨rfl, rfl, rfl⟩ := bbIndex_inj hb.2.1 hb.2.2 hy hz h3.symm
      exact ⟨h1, h2⟩
    · rintro ⟨h1, h2⟩
      exact ⟨(x, y, z), mem_allTriples.2 ⟨hx, hy, hz⟩, h1, h2, rfl⟩
  · intro x y z
    by_cases hy : y < 0
    · simp [block_exists, hy]
    · rw [block_exists, if_neg hy, Map.index]
      by_cases hb : x < 0 ∨ (S : ℤ) ≤ x ∨ y < 0 ∨ (S : ℤ) ≤ y ∨ z < 0 ∨ (S : ℤ) ≤ z
      · rw [if_pos hb]
        simp only [Bool.false_eq_true, false_iff]
        rintro (h | ⟨h0, h1, h2, h3, h4, h5, h6⟩)
        · exact hy h
        · omega
      · rw [if_neg hb]
        push_neg at hb
        simp only [Block.is_opaque, decide_eq_true_eq]
        constructor
        · intro h
          exact Or.inr ⟨hb.1, by omega, by omega, by omega, by omega, by omega, h⟩
        · rintro (h | h)
          · exact absurd h hy
          · exact h.2.2.2.2.2.2

/-- Witness for C2: the exposure rule instantiated at a concrete cell of a
concrete grid, with the bounds discharged. -/
theorem c2_exposure_rule_witness :
    bbIndex 1 0 0 0 ∈ exposure_mask 1 stoneMap sampleQuad.face ↔
      (stoneMap.blocks 0 0 0).blocktype ≠ BlockAir ∧
        block_exists 1 stoneMap (((0 : ℕ) : ℤ) + sampleQuad.face.normal.1)
          (((0 : ℕ) : ℤ) + sampleQuad.face.normal.2.1)
          (((0 : ℕ) : ℤ) + sampleQuad.face.normal.2.2) = false :=
  (c2_exposure_rule 1 stoneMap sampleQuad.face).1 0 0 0
    Nat.zero_lt_one Nat.zero_lt_one Nat.zero_lt_one

/-! ## Pointwise characterisation of the generated terrain -/

theorem Map.blocks_set (m : Map) (x y z : ℕ) (b : Block) (a c d : ℕ) :
    (m.set x y z b).blocks a c d = if a = x ∧ c = y ∧ d = z then b else m.blocks a c d := rfl

theorem foldl_set_blocks (g : ℕ → Block) (bx bz : ℕ) :
    ∀ (ys : List ℕ) (m : Map) (a yy c : ℕ),
      ((ys.foldl (fun acc y => acc.set bx y bz (g y)) m).blocks a yy c) =
        if a = bx ∧ c = bz ∧ yy ∈ ys then g yy else m.blocks a yy c := by
  intro ys
  induction ys with
  | nil => simp
  | cons y ys ih =>
    intro m a yy c
    rw [List.foldl_cons, ih, Map.blocks_set]
    by_cases h1 : a = bx
    · by_cases h2 : c = bz
      · subst h1; subst h2
        by_cases h3 : yy ∈ ys
        · simp [h3]
        · by_cases h4 : yy = y
          · subst h4; simp [h3]
          · simp [h3, h4]
      · simp [h2]
    · simp [h1]

theorem fillColumn_blocks (P : ℕ → ℚ → ℚ → ℚ) (powf : ℚ → ℚ → ℚ) (S : ℕ)
    (seed : ℕ) (cx cz : ℤ) (m : Map) (bx bz a yy c : ℕ) :
    (fillColumn P powf S seed cx cz m bx bz).blocks a yy c =
      if a = bx ∧ c = bz then fillVal P powf S seed cx cz bx bz yy (m.blocks a yy c)
      else m.blocks a yy c := by
  unfold fillColumn
  rw [foldl_set_blocks, foldl_set_blocks]
  by_cases h1 : a = bx
  · subst h1
    by_cases h2 : c = bz
    · subst h2
      unfold fillVal
      simp only [List.mem_range, List.mem_range'_1, true_and, and_true,
        eq_self_iff_true, if_true]
      split_ifs <;> first | rfl | omega
    · simp [h2]
  · simp [h1]

theorem fillVal_idem (P : ℕ → ℚ → ℚ → ℚ) (powf : ℚ → ℚ → ℚ) (S : ℕ) (seed : ℕ)
    (cx cz : ℤ) (bx bz yy : ℕ) (old : Block) :
    fillVal P powf S seed cx cz bx bz yy (fillVal P powf S seed cx cz bx bz yy old) =
      fillVal P powf S seed cx cz bx bz yy old := by
  unfold fillVal
  split_ifs <;> rfl

theorem inner_fold_blocks (P : ℕ → ℚ → ℚ → ℚ) (powf : ℚ → ℚ → ℚ) (S : ℕ)
    (seed : ℕ) (cx cz : ℤ) (bx : ℕ) :
    ∀ (zs : List ℕ) (m : Map) (a yy c : ℕ),
      ((zs.foldl (fun acc bz => fillColumn P powf S seed cx cz acc bx bz) m).blocks a yy c) =
        if a = bx ∧ c ∈ zs then fillVal P powf S seed cx cz bx c yy (m.blocks a yy c)
        else m.blocks a yy c := by
  intro zs
  induction zs with
  | nil => simp
  | cons z zs ih =>
    intro m a yy c
    rw [List.foldl_cons, ih, fillColumn_blocks]
    by_cases h1 : a = bx
    · subst h1
      by_cases h2 : c ∈ zs
      · by_cases h3 : c = z
        · subst h3
          simp [h2, fillVal_idem]
        · simp [h2, h3]
      · by_cases h3 : c = z
        · subst h3
          simp [h2]
        · simp [h2, h3]
    · simp [h1]

theorem outer_fold_blocks (P : ℕ → ℚ → ℚ → ℚ) (powf : ℚ → ℚ → ℚ) (S : ℕ)
    (seed : ℕ) (cx cz : ℤ) :
    ∀ (xs : List ℕ) (m : Map) (a yy c : ℕ),
      ((xs.foldl
        (fun acc bx => (List.range S).foldl
          (fun acc2 bz => fillColumn P powf S seed cx cz acc2 bx bz) acc) m).blocks a yy c) =
        if a ∈ xs ∧ c < S then fillVal P powf S seed cx cz a c yy (m.blocks a yy c)
        else m.blocks a yy c := by
  intro xs
  induction xs with
  | nil => simp
  | cons x xs ih =>
    intro m a yy c
    rw [List.foldl_cons, ih, inner_fold_blocks]
    by_cases h1 : a ∈ xs
    · by_cases h2 : c < S
      · by_cases h3 : a = x
        · subst h3
          simp [h1, h2, List.mem_range, fillVal_idem]
        · simp [h1, h2, h3, List.mem_range]
      · simp [h1, h2, List.mem_range]
    · by_cases h3 : a = x
      · subst h3
        simp [h1, List.mem_range]
      · simp [h1, h3, List.mem_range]

theorem terrain_gen_blocks (P : ℕ → ℚ → ℚ → ℚ) (powf : ℚ → ℚ → ℚ) (S : ℕ)
    (seed : ℕ) (cx cz : ℤ) (bx bz : ℕ) (hbx : bx < S) (hbz : bz < S) (y : ℕ) :
    (terrain_gen P powf S seed cx cz).blocks bx y bz =
      ⟨terrain_block P powf S seed cx cz bx bz y⟩ := by
  rw [terrain_gen, outer_fold_blocks,
    if_pos (And.intro (List.mem_range.2 hbx) hbz)]
  unfold fillVal terrain_block
  split_ifs <;> rfl

theorem terrain_height_lt_width (P : ℕ → ℚ → ℚ → ℚ) (powf : ℚ → ℚ → ℚ) (S : ℕ)
    (seed : ℕ) (cx cz : ℤ) (bx bz : ℕ) (hS : S < 2 ^ 64) :
    terrain_height P powf S seed cx cz bx bz < 2 ^ 64 := by
  unfold terrain_height clampI
  split_ifs <;> omega

/-! ## Terrain claims (C6, C7, C9) -/

/-- **C6 (amended).** The solid (stone/dirt/grass) fill of every generated
column is bounded exactly by
`clamp(trunc(15 + noise4*10 + 10*(noise3+1)^2.5*noise1), 1, CHUNK_SIZE-1)`,
where the noise samples come from the fields seeded `seed`, `seed*13`,
`seed*17` at the scaled world coordinates — with the source's truncating
`as int` cast in place of the claim's `round`. -/
theorem c6_height_formula (P : ℕ → ℚ → ℚ → ℚ) (powf : ℚ → ℚ → ℚ) (S : ℕ)
    (seed : ℕ) (cx cz : ℤ) (bx bz : ℕ) (hbx : bx < S) (hbz : bz < S) (y : ℕ) :
    (y < (clampI
        (ratTrunc
          (15 + noise4 P seed cx cz bx bz * 10 +
            10 * powf (noise3 P seed cx cz bx bz + 1) (5/2) * noise1 P seed cx cz bx bz))
        1 ((S : ℤ) - 1)).toNat ↔
      ((terrain_gen P powf S seed cx cz).blocks bx y bz).blocktype ∈
        [BlockStone, BlockDirt, BlockGrass]) := by
  rw [terrain_gen_blocks P powf S seed cx cz bx bz hbx hbz y]
  show y < terrain_height P powf S seed cx cz bx bz ↔ _
  unfold terrain_block
  by_cases h : y < terrain_height P powf S seed cx cz bx bz
  · rw [if_pos h]
    simp only [h, true_iff]
    unfold column_blocktype
    dsimp only
    split_ifs <;> simp
  · rw [if_neg h]
    simp only [h, false_iff]
    split_ifs <;> simp

/-- Witness for C6 (amended): the bounds hypotheses are satisfiable. -/
theorem c6_height_formula_witness :
    (0 < 1) ∧ (0 < 1) ∧
    (0 < (clampI
        (ratTrunc
          (15 + noise4 trivialNoise 0 0 0 0 0 * 10 +
            10 * trivialPow (noise3 trivialNoise 0 0 0 0 0 + 1) (5/2) *
              noise1 trivialNoise 0 0 0 0 0))
        1 ((1 : ℤ) - 1)).toNat ↔
      ((terrain_gen trivialNoise trivialPow 1 0 0 0).blocks 0 0 0).blocktype ∈
        [BlockStone, BlockDirt, BlockGrass]) :=
  ⟨Nat.zero_lt_one, Nat.zero_lt_one,
    c6_height_formula trivialNoise trivialPow 1 0 0 0 0 0 Nat.zero_lt_one Nat.zero_lt_one 0⟩

/-- **C6 counterexample.** At a noise sample of `0.07` for `noise4` (and zero
for the others) the pre-clamp value is `15.7`: the spec's `round` gives height
16, the code's truncating cast gives 15, and the cell at `y = 15` — solid
according to the claim — is actually air. -/
theorem c6_round_cex :
    terrain_height_round cexNoise6 cexPow6 32 1 0 0 0 0 = 16 ∧
    terrain_height cexNoise6 cexPow6 32 1 0 0 0 0 = 15 ∧
    ((terrain_gen cexNoise6 cexPow6 32 1 0 0).blocks 0 15 0).blocktype = BlockAir := by
  have hv : (15 + noise4 cexNoise6 1 0 0 0 0 * 10 +
      10 * cexPow6 (noise3 cexNoise6 1 0 0 0 0 + 1) (5/2) * noise1 cexNoise6 1 0 0 0 0) =
      (157 : ℚ)/10 := by
    norm_num [noise1, noise3, noise4, cexNoise6, cexPow6, worldQ]
  have hh : terrain_height cexNoise6 cexPow6 32 1 0 0 0 0 = 15 := by
    rw [terrain_height, hv]
    norm_num [ratTrunc, clampI]
    decide
  refine ⟨?_, hh, ?_⟩
  · rw [terrain_height_round, hv]
    norm_num [clampI, round_eq]
    decide
  · rw [terrain_gen_blocks cexNoise6 cexPow6 32 1 0 0 0 0 (by norm_num) (by norm_num) 15]
    rw [terrain_block, hh]
    norm_num

/-- **C7 (amended).** Below the column height `h`, a cell is stone unless
`h ≤ 20` and `y + dirt_thickness ≥ h`, in which case it is grass on the top
two layers and dirt below — except that for `h = 1` the `uint` wrap-around in
`height - 2` makes the single layer dirt, never grass. -/
theorem c7_column_layers (P : ℕ → ℚ → ℚ → ℚ) (powf : ℚ → ℚ → ℚ) (S : ℕ)
    (seed : ℕ) (cx cz : ℤ) (bx bz y : ℕ) (hbx : bx < S) (hbz : bz < S)
    (hS : S < 2 ^ 64) (hy : y < terrain_height P powf S seed cx cz bx bz) :
    ((terrain_gen P powf S seed cx cz).blocks bx y bz).blocktype =
      (if terrain_height P powf S seed cx cz bx bz ≤ 20 ∧
          terrain_height P powf S seed cx cz bx bz ≤ y + dirt_height P seed cx cz bx bz then
        (if 2 ≤ terrain_height P powf S seed cx cz bx bz ∧
            terrain_height P powf S seed cx cz bx bz - 2 ≤ y then BlockGrass else BlockDirt)
      else BlockStone) := by
  rw [terrain_gen_blocks P powf S seed cx cz bx bz hbx hbz y]
  show terrain_block P powf S seed cx cz bx bz y = _
  rw [terrain_block, if_pos hy, column_blocktype]
  have hw := terrain_height_lt_width P powf S seed cx cz bx bz hS
  by_cases h1 : terrain_height P powf S seed cx cz bx bz ≤ 20 ∧
      terrain_height P powf S seed cx cz bx bz ≤ y + dirt_height P seed cx cz bx bz
  · rw [if_pos h1, if_pos h1]
    by_cases h2 : 2 ≤ terrain_height P powf S seed cx cz bx bz ∧
        terrain_height P powf S seed cx cz bx bz - 2 ≤ y
    · rw [if_pos h2, if_neg (by omega)]
    · rw [if_neg h2, if_pos (by omega)]
  · rw [if_neg h1, if_neg h1]

/-- Witness for C7 (amended): the hypotheses are satisfiable (all-zero noise
gives height 15, and `y = 0` lies below it). -/
theorem c7_column_layers_witness :
    (0 < 32) ∧ (0 < 32) ∧ (32 < 2 ^ 64) ∧
    (0 < terrain_height trivialNoise trivialPow 32 0 0 0 0 0) ∧
    ((terrain_gen trivialNoise trivialPow 32 0 0 0).blocks 0 0 0).blocktype =
      (if terrain_height trivialNoise trivialPow 32 0 0 0 0 0 ≤ 20 ∧
          terrain_height trivialNoise trivialPow 32 0 0 0 0 0 ≤
            0 + dirt_height trivialNoise 0 0 0 0 0 then
        (if 2 ≤ terrain_height trivialNoise trivialPow 32 0 0 0 0 0 ∧
            terrain_height trivialNoise trivialPow 32 0 0 0 0 0 - 2 ≤ 0 then BlockGrass
         else BlockDirt)
      else BlockStone) := by
  have hy : 0 < terrain_height trivialNoise trivialPow 32 0 0 0 0 0 := by
    norm_num [terrain_height, trivialNoise, trivialPow, noise1, noise3, noise4, worldQ,
      ratTrunc, clampI]
  exact ⟨by norm_num, by norm_num, by norm_num, hy,
    c7_column_layers trivialNoise trivialPow 32 0 0 0 0 0 0 (by norm_num) (by norm_num)
      (by norm_num) hy⟩

/-- **C7 counterexample.** With `noise1 = noise4 = -1`, `noise2 = noise3 = 0`
and `pow(1, 2.5) = 1` the pre-clamp value is `-5`, so the clamped height is 1
and the dirt condition holds at the top layer `y = 0 = h - 1` — yet the cell
is dirt, not grass, because `height - 2` wraps around in `uint` arithmetic. -/
theorem c7_grass_cex :
    terrain_height cexNoise7 cexPow7 32 1 0 0 0 0 = 1 ∧
    dirt_height cexNoise7 1 0 0 0 0 = 4 ∧
    ((terrain_gen cexNoise7 cexPow7 32 1 0 0).blocks 0 0 0).blocktype = BlockDirt := by
  have hv : (15 + noise4 cexNoise7 1 0 0 0 0 * 10 +
      10 * cexPow7 (noise3 cexNoise7 1 0 0 0 0 + 1) (5/2) * noise1 cexNoise7 1 0 0 0 0) =
      (-5 : ℚ) := by
    norm_num [noise1, noise3, noise4, cexNoise7, cexPow7, worldQ]
  have hm5 : ratTrunc (-5 : ℚ) = -5 := by
    rw [ratTrunc, if_neg (by norm_num)]
    rw [show ((-5 : ℚ)) = (((-5 : ℤ) : ℚ)) by norm_num, Int.ceil_intCast]
  have hh : terrain_height cexNoise7 cexPow7 32 1 0 0 0 0 = 1 := by
    rw [terrain_height, hv, hm5]
    norm_num [clampI]
  have hd : dirt_height cexNoise7 1 0 0 0 0 = 4 := by
    norm_num [dirt_height, noise2, cexNoise7, worldQ, ratTrunc]
    decide
  refine ⟨hh, hd, ?_⟩
  rw [terrain_gen_blocks cexNoise7 cexPow7 32 1 0 0 0 0 (by norm_num) (by norm_num) 0]
  rw [terrain_block, column_blocktype, hh, hd]
  norm_num

/-- **C9.** Terrain generation is a pure function of `(seed, chunk_x,
chunk_z)` (given the fixed noise library): two chunks generated from the same
arguments — even at different wall-clock times — have cell-for-cell equal
grids and equal meshes. -/
theorem c9_terrain_deterministic (P : ℕ → ℚ → ℚ → ℚ) (powf : ℚ → ℚ → ℚ) (S : ℕ)
    (seed : ℕ) (cx cz : ℤ) (t1 t2 : ℕ) :
    (∀ x y z : ℕ,
      (chunk_gen P powf S seed cx cz t1).map.blocks x y z =
        (chunk_gen P powf S seed cx cz t2).map.blocks x y z) ∧
    (chunk_gen P powf S seed cx cz t1).map = terrain_gen P powf S seed cx cz ∧
    (chunk_gen P powf S seed cx cz t1).mesh = (chunk_gen P powf S seed cx cz t2).mesh :=
  ⟨fun _ _ _ => rfl, rfl, rfl⟩

/-! ## The greedy mesher: basic facts -/

theorem faces_wf : ∀ f ∈ faces, FaceWF f := by
  intro f hf
  fin_cases hf <;> exact ⟨by decide, rfl⟩

theorem vmul_zero (a : ℕ × ℕ × ℕ) : vmul a 0 = (0, 0, 0) := by
  simp [vmul]

theorem vmul_one (a : ℕ × ℕ × ℕ) : vmul a 1 = a := by
  simp [vmul]

theorem vadd_zero (p : ℕ × ℕ × ℕ) : vadd p (0, 0, 0) = p := by
  simp [vadd]

theorem vadd_vmul_step (p dp : ℕ × ℕ × ℕ) (s : ℕ) :
    vadd (vadd p dp) (vmul dp s) = vadd p (vmul dp (s + 1)) := by
  simp only [vadd, vmul, Prod.mk.injEq]
  refine ⟨by ring, by ring, by ring⟩

theorem vadd_swap_jk (p a b : ℕ × ℕ × ℕ) :
    vadd (vadd p a) b = vadd p (vadd b a) := by
  simp only [vadd, Prod.mk.injEq]
  refine ⟨by ring, by ring, by ring⟩

theorem cellOf_lt {S : ℕ} {f : Face} (hw : FaceWF f) {t : ℕ × ℕ × ℕ}
    (h1 : t.1 < S) (h2 : t.2.1 < S) (h3 : t.2.2 < S) :
    (cellOf f t).1 < S ∧ (cellOf f t).2.1 < S ∧ (cellOf f t).2.2 < S := by
  rcases hw.1 with ⟨hdi, hdj, hdk⟩ | ⟨hdi, hdj, hdk⟩ | ⟨hdi, hdj, hdk⟩ |
      ⟨hdi, hdj, hdk⟩ | ⟨hdi, hdj, hdk⟩ | ⟨hdi, hdj, hdk⟩ <;>
    simp only [cellOf, vadd, vmul, hdi, hdj, hdk, exv, eyv, ezv] <;>
    refine ⟨by omega, by omega, by omega⟩

theorem cellOf_surj {S : ℕ} {f : Face} (hw : FaceWF f) {v : ℕ × ℕ × ℕ}
    (h1 : v.1 < S) (h2 : v.2.1 < S) (h3 : v.2.2 < S) :
    ∃ t ∈ allTriples S, cellOf f t = v := by
  obtain ⟨x, y, z⟩ := v
  rcases hw.1 with ⟨hdi, hdj, hdk⟩ | ⟨hdi, hdj, hdk⟩ | ⟨hdi, hdj, hdk⟩ |
      ⟨hdi, hdj, hdk⟩ | ⟨hdi, hdj, hdk⟩ | ⟨hdi, hdj, hdk⟩
  · exact ⟨(x, y, z), mem_allTriples.2 ⟨h1, h2, h3⟩,
      by simp [cellOf, vadd, vmul, hdi, hdj, hdk, exv, eyv, ezv]⟩
  · exact ⟨(x, z, y), mem_allTriples.2 ⟨h1, h3, h2⟩,
      by simp [cellOf, vadd, vmul, hdi, hdj, hdk, exv, eyv, ezv]⟩
  · exact ⟨(y, x, z), mem_allTriples.2 ⟨h2, h1, h3⟩,
      by simp [cellOf, vadd, vmul, hdi, hdj, hdk, exv, eyv, ezv]⟩
  · exact ⟨(y, z, x), mem_allTriples.2 ⟨h2, h3, h1⟩,
      by simp [cellOf, vadd, vmul, hdi, hdj, hdk, exv, eyv, ezv]⟩
  · exact ⟨(z, x, y), mem_allTriples.2 ⟨h3, h1, h2⟩,
      by simp [cellOf, vadd, vmul, hdi, hdj, hdk, exv, eyv, ezv]⟩
  · exact ⟨(z, y, x), mem_allTriples.2 ⟨h3, h2, h1⟩,
      by simp [cellOf, vadd, vmul, hdi, hdj, hdk, exv, eyv, ezv]⟩

/-! ## `run_length` and `expand_face` soundness -/

theorem run_length_go_sound (S : ℕ) (m : Map) (mask : Finset ℕ) (bt : BlockType)
    (dp : ℕ × ℕ × ℕ) :
    ∀ (fuel : ℕ) (p : ℕ × ℕ × ℕ) (t : ℕ), t < run_length_go S m mask bt fuel p dp →
      (let c := vadd p (vmul dp (t + 1));
       bbIndex S c.1 c.2.1 c.2.2 ∈ mask ∧
       (c.1 < S ∧ c.2.1 < S ∧ c.2.2 < S) ∧
       (m.blocks c.1 c.2.1 c.2.2).blocktype = bt) := by
  intro fuel
  induction fuel with
  | zero => intro p t ht; simp [run_length_go] at ht
  | succ fuel ih =>
    intro p t ht
    rw [run_length_go] at ht
    by_cases hc : bbContains S mask (vadd p dp).1 (vadd p dp).2.1 (vadd p dp).2.2 = true
    · rw [if_pos hc] at ht
      rcases hidx : Map.index S m ((vadd p dp).1 : ℤ) ((vadd p dp).2.1 : ℤ)
          ((vadd p dp).2.2 : ℤ) with _ | b
      · rw [hidx] at ht; simp at ht
      · rw [hidx] at ht
        dsimp only at ht
        by_cases hbt : b.blocktype = bt
        · rw [if_pos hbt] at ht
          have hbounds : (vadd p dp).1 < S ∧ (vadd p dp).2.1 < S ∧ (vadd p dp).2.2 < S := by
            rw [Map.index] at hidx
            by_cases hb : ((vadd p dp).1 : ℤ) < 0 ∨ (S : ℤ) ≤ ((vadd p dp).1 : ℤ) ∨
                ((vadd p dp).2.1 : ℤ) < 0 ∨ (S : ℤ) ≤ ((vadd p dp).2.1 : ℤ) ∨
                ((vadd p dp).2.2 : ℤ) < 0 ∨ (S : ℤ) ≤ ((vadd p dp).2.2 : ℤ)
            · rw [if_pos hb] at hidx; cases hidx
            · push_neg at hb; omega
          have hblock : m.blocks (vadd p dp).1 (vadd p dp).2.1 (vadd p dp).2.2 = b := by
            rw [Map.index] at hidx
            rw [if_neg (by push_neg; omega)] at hidx
            simpa [Int.toNat_natCast] using hidx
          cases t with
          | zero =>
            simp only [Nat.zero_add, vmul_one]
            exact ⟨by simpa [bbContains] using hc, hbounds, by rw [hblock]; exact hbt⟩
          | succ t' =>
            have ht' : t' < run_length_go S m mask bt fuel (vadd p dp) dp := by omega
            have := ih (vadd p dp) t' ht'
            rw [vadd_vmul_step] at this
            exact this
        · rw [if_neg hbt] at ht; omega
    · rw [if_neg hc] at ht; omega

theorem run_length_sound (S : ℕ) (m : Map) (mask : Finset ℕ) (p dp : ℕ × ℕ × ℕ)
    (t : ℕ) (h1 : 1 ≤ t) (h2 : t < run_length S m mask p dp) :
    (let c := vadd p (vmul dp t);
     bbIndex S c.1 c.2.1 c.2.2 ∈ mask ∧
     (c.1 < S ∧ c.2.1 < S ∧ c.2.2 < S) ∧
     (m.blocks c.1 c.2.1 c.2.2).blocktype = (m.blocks p.1 p.2.1 p.2.2).blocktype) := by
  have ht : t - 1 < run_length_go S m mask (m.blocks p.1 p.2.1 p.2.2).blocktype S p dp := by
    rw [run_length] at h2; omega
  have := run_length_go_sound S m mask (m.blocks p.1 p.2.1 p.2.2).blocktype dp S p (t - 1) ht
  rwa [show t - 1 + 1 = t by omega] at this

theorem run_length_pos (S : ℕ) (m : Map) (mask : Finset ℕ) (p dp : ℕ × ℕ × ℕ) :
    1 ≤ run_length S m mask p dp := by
  rw [run_length]; omega

theorem foldl_min_spec : ∀ (xs : List ℕ) (a : ℕ),
    (xs.foldl min a = a ∨ xs.foldl min a ∈ xs) ∧ xs.foldl min a ≤ a ∧
    ∀ x ∈ xs, xs.foldl min a ≤ x := by
  intro xs
  induction xs with
  | nil => intro a; exact ⟨Or.inl rfl, le_refl a, by simp⟩
  | cons x xs ih =>
    intro a
    rw [List.foldl_cons]
    obtain ⟨hmem, hle, hall⟩ := ih (min a x)
    refine ⟨?_, ?_, ?_⟩
    · rcases hmem with h | h
      · rcases le_total a x with hax | hax
        · exact Or.inl (by rw [h, min_eq_left hax])
        · exact Or.inr (by rw [h, min_eq_right hax]; exact List.mem_cons_self x xs)
      · exact Or.inr (List.mem_cons_of_mem x h)
    · exact le_trans hle (min_le_left a x)
    · intro u hu
      rcases List.mem_cons.1 hu with rfl | hu
      · exact le_trans hle (min_le_right a u)
      · exact hall u hu

theorem min?_spec {l : List ℕ} (hne : l ≠ []) :
    ∃ v, l.min? = some v ∧ v ∈ l ∧ ∀ x ∈ l, v ≤ x := by
  cases l with
  | nil => exact absurd rfl hne
  | cons x xs =>
    obtain ⟨hmem, hle, hall⟩ := foldl_min_spec xs x
    refine ⟨xs.foldl min x, rfl, ?_, ?_⟩
    · rcases hmem with h | h
      · rw [h]; exact List.mem_cons_self x xs
      · exact List.mem_cons_of_mem x h
    · intro u hu
      rcases List.mem_cons.1 hu with rfl | hu
      · exact hle
      · exact hall u hu

theorem zero_vadd (p : ℕ × ℕ × ℕ) : vadd (0, 0, 0) p = p := by
  simp [vadd]

theorem expand_face_sound (S : ℕ) (m : Map) (mask : Finset ℕ) (f : Face)
    (p : ℕ × ℕ × ℕ) (hp1 : p.1 < S) (hp2 : p.2.1 < S) (hp3 : p.2.2 < S)
    (hpm : bbIndex S p.1 p.2.1 p.2.2 ∈ mask) :
    ∃ lj lk : ℕ, 1 ≤ lj ∧ 1 ≤ lk ∧
      expand_face S m mask f p =
        vadd (vadd (1, 1, 1) (vmul f.dk (lk - 1))) (vmul f.dj (lj - 1)) ∧
      ∀ j k : ℕ, j < lj → k < lk →
        (let c := vadd p (vadd (vmul f.dj j) (vmul f.dk k));
         bbIndex S c.1 c.2.1 c.2.2 ∈ mask ∧ (c.1 < S ∧ c.2.1 < S ∧ c.2.2 < S) ∧
         (m.blocks c.1 c.2.1 c.2.2).blocktype = (m.blocks p.1 p.2.1 p.2.2).blocktype) := by
  have hlk : 1 ≤ run_length S m mask p f.dk := run_length_pos ..
  have hne : ((List.range (run_length S m mask p f.dk)).map fun k =>
      run_length S m mask (vadd p (vmul f.dk k)) f.dj) ≠ [] := by
    simp only [ne_eq, List.map_eq_nil_iff, List.range_eq_nil]
    omega
  obtain ⟨v, hv, hvmem, hvall⟩ := min?_spec hne
  refine ⟨(((List.range (run_length S m mask p f.dk)).map fun k =>
      run_length S m mask (vadd p (vmul f.dk k)) f.dj).min?).getD 1,
    run_length S m mask p f.dk, ?_, hlk, rfl, ?_⟩
  · rw [hv, Option.getD_some]
    obtain ⟨k0, _, hk0⟩ := List.mem_map.1 hvmem
    rw [← hk0]
    exact run_length_pos ..
  · intro j k hj hk
    rw [hv, Option.getD_some] at hj
    -- properties of the dk-offset start cell
    have hq1 : bbIndex S (vadd p (vmul f.dk k)).1 (vadd p (vmul f.dk k)).2.1
          (vadd p (vmul f.dk k)).2.2 ∈ mask ∧
        ((vadd p (vmul f.dk k)).1 < S ∧ (vadd p (vmul f.dk k)).2.1 < S ∧
          (vadd p (vmul f.dk k)).2.2 < S) ∧
        (m.blocks (vadd p (vmul f.dk k)).1 (vadd p (vmul f.dk k)).2.1
            (vadd p (vmul f.dk k)).2.2).blocktype =
          (m.blocks p.1 p.2.1 p.2.2).blocktype := by
      cases k with
      | zero =>
        simp only [vmul_zero, vadd_zero]
        exact ⟨hpm, ⟨hp1, hp2, hp3⟩, trivial⟩
      | succ k' => exact run_length_sound S m mask p f.dk (k' + 1) (by omega) hk
    have hjle : v ≤ run_length S m mask (vadd p (vmul f.dk k)) f.dj :=
      hvall _ (List.mem_map.2 ⟨k, List.mem_range.2 hk, rfl⟩)
    rw [show vadd p (vadd (vmul f.dj j) (vmul f.dk k)) =
        vadd (vadd p (vmul f.dk k)) (vmul f.dj j) from (vadd_swap_jk ..).symm]
    cases j with
    | zero =>
      simp only [vmul_zero, vadd_zero]
      exact hq1
    | succ j' =>
      have := run_length_sound S m mask (vadd p (vmul f.dk k)) f.dj (j' + 1)
        (by omega) (by omega)
      exact ⟨this.1, this.2.1, this.2.2.trans hq1.2.2⟩

theorem mem_boxTriples {dim d : ℕ × ℕ × ℕ} :
    d ∈ boxTriples dim ↔ d.1 < dim.1 ∧ d.2.1 < dim.2.1 ∧ d.2.2 < dim.2.2 := by
  obtain ⟨a, b, c⟩ := d
  simp only [boxTriples, List.mem_flatMap, List.mem_map, List.mem_range, Prod.mk.injEq]
  constructor
  · rintro ⟨a', ha, b', hb, c', hc, rfl, rfl, rfl⟩
    exact ⟨ha, hb, hc⟩
  · rintro ⟨ha, hb, hc⟩
    exact ⟨a, ha, b, hb, c, hc, rfl, rfl, rfl⟩

theorem foldl_erase_mem {β : Type} (g : β → ℕ) :
    ∀ (L : List β) (s : Finset ℕ) (n : ℕ),
      (n ∈ L.foldl (fun acc d => acc.erase (g d)) s ↔ n ∈ s ∧ ∀ d ∈ L, g d ≠ n) := by
  intro L
  induction L with
  | nil => simp
  | cons b L ih =>
    intro s n
    rw [List.foldl_cons, ih]
    simp only [Finset.mem_erase, List.mem_cons, ne_eq]
    constructor
    · rintro ⟨⟨hne, hs⟩, hall⟩
      refine ⟨hs, ?_⟩
      rintro d (rfl | hd)
      · exact fun he => hne he.symm
      · exact hall d hd
    · rintro ⟨hs, hall⟩
      exact ⟨⟨fun he => hall b (Or.inl rfl) he.symm, hs⟩, fun d hd => hall d (Or.inr hd)⟩

theorem quad_cells_mem (q : Quad) (c : ℕ × ℕ × ℕ) :
    c ∈ q.cells ↔
      ∃ d : ℕ × ℕ × ℕ,
        (d.1 < q.dim.1 ∧ d.2.1 < q.dim.2.1 ∧ d.2.2 < q.dim.2.2) ∧ c = vadd q.p d := by
  simp only [Quad.cells, Finset.mem_image, Finset.mem_product, Finset.mem_range]
  constructor
  · rintro ⟨d, ⟨h1, h2, h3⟩, he⟩
    exact ⟨d, ⟨h1, h2, h3⟩, he.symm⟩
  · rintro ⟨d, ⟨h1, h2, h3⟩, he⟩
    exact ⟨d, ⟨h1, h2, h3⟩, he.symm⟩

theorem box_to_jk {f : Face} (hw : FaceWF f) {lj lk : ℕ} (hlj : 1 ≤ lj) (hlk : 1 ≤ lk)
    {d : ℕ × ℕ × ℕ}
    (h1 : d.1 < (vadd (vadd (1, 1, 1) (vmul f.dk (lk - 1))) (vmul f.dj (lj - 1))).1)
    (h2 : d.2.1 < (vadd (vadd (1, 1, 1) (vmul f.dk (lk - 1))) (vmul f.dj (lj - 1))).2.1)
    (h3 : d.2.2 < (vadd (vadd (1, 1, 1) (vmul f.dk (lk - 1))) (vmul f.dj (lj - 1))).2.2) :
    ∃ j k : ℕ, j < lj ∧ k < lk ∧ d = vadd (vmul f.dj j) (vmul f.dk k) := by
  obtain ⟨a, b, c⟩ := d
  rcases hw.1 with ⟨hdi, hdj, hdk⟩ | ⟨hdi, hdj, hdk⟩ | ⟨hdi, hdj, hdk⟩ |
      ⟨hdi, hdj, hdk⟩ | ⟨hdi, hdj, hdk⟩ | ⟨hdi, hdj, hdk⟩ <;>
    simp only [hdj, hdk, exv, eyv, ezv, vadd, vmul, mul_zero, zero_mul, mul_one, one_mul,
      add_zero, zero_add, Prod.mk.injEq] at h1 h2 h3 ⊢
  · exact ⟨b, c, by omega, by omega, by omega, rfl, rfl⟩
  · exact ⟨c, b, by omega, by omega, by omega, rfl, rfl⟩
  · exact ⟨a, c, by omega, by omega, rfl, by omega, rfl⟩
  · exact ⟨c, a, by omega, by omega, rfl, by omega, rfl⟩
  · exact ⟨a, b, by omega, by omega, rfl, rfl, by omega⟩
  · exact ⟨b, a, by omega, by omega, rfl, rfl, by omega⟩

/-! ## The merge scan invariant -/

theorem mergeStep_skip (S : ℕ) (cx cz : ℤ) (m : Map) (face : Face)
    (st : MeshState) (mask : Finset ℕ) (u : ℕ × ℕ × ℕ)
    (hc : ¬ bbContains S mask (cellOf face u).1 (cellOf face u).2.1
      (cellOf face u).2.2 = true) :
    mergeStep S cx cz m face (st, mask) u = (st, mask) := by
  unfold mergeStep
  rw [if_neg hc]

theorem mergeStep_emit (S : ℕ) (cx cz : ℤ) (m : Map) (face : Face)
    (st : MeshState) (mask : Finset ℕ) (u : ℕ × ℕ × ℕ)
    (hc : bbContains S mask (cellOf face u).1 (cellOf face u).2.1
      (cellOf face u).2.2 = true) :
    mergeStep S cx cz m face (st, mask) u =
      (emitState S cx cz m face st mask (cellOf face u),
       (boxTriples (expand_face S m mask face (cellOf face u))).foldl
         (fun mk d => bbRemove S mk ((cellOf face u).1 + d.1) ((cellOf face u).2.1 + d.2.1)
           ((cellOf face u).2.2 + d.2.2)) mask) := by
  unfold mergeStep
  rw [if_pos hc]

theorem emitState_quads (S : ℕ) (cx cz : ℤ) (m : Map) (face : Face) (st : MeshState)
    (mask : Finset ℕ) (v : ℕ × ℕ × ℕ) :
    (emitState S cx cz m face st mask v).quads =
      st.quads ++ [⟨face, v, expand_face S m mask face v,
        (m.blocks v.1 v.2.1 v.2.2).blocktype, mask⟩] := rfl

theorem removal_mem (S : ℕ) (c0 dim : ℕ × ℕ × ℕ) (mask : Finset ℕ) (n : ℕ) :
    (n ∈ (boxTriples dim).foldl
        (fun mk d => bbRemove S mk (c0.1 + d.1) (c0.2.1 + d.2.1) (c0.2.2 + d.2.2)) mask) ↔
      (n ∈ mask ∧ ∀ d ∈ boxTriples dim,
        bbIndex S (c0.1 + d.1) (c0.2.1 + d.2.1) (c0.2.2 + d.2.2) ≠ n) := by
  have h := foldl_erase_mem
    (fun d : ℕ × ℕ × ℕ => bbIndex S (c0.1 + d.1) (c0.2.1 + d.2.1) (c0.2.2 + d.2.2))
    (boxTriples dim) mask n
  simpa [bbRemove] using h

theorem merge_fold_count (S : ℕ) (cx cz : ℤ) (m : Map) (face : Face) (hw : FaceWF face) :
    ∀ (L : List (ℕ × ℕ × ℕ)) (st : MeshState) (mask : Finset ℕ),
      (∀ t ∈ L, t.1 < S ∧ t.2.1 < S ∧ t.2.2 < S) →
      (∀ n ∈ mask, ∃ w : ℕ × ℕ × ℕ, (w.1 < S ∧ w.2.1 < S ∧ w.2.2 < S) ∧
        n = bbIndex S w.1 w.2.1 w.2.2) →
      ∀ v : ℕ × ℕ × ℕ, v.1 < S → v.2.1 < S → v.2.2 < S →
        (((L.foldl (mergeStep S cx cz m face) (st, mask)).1.quads.countP
            (fun q => decide (q.face.index = face.index ∧ v ∈ q.cells)) +
          (if bbIndex S v.1 v.2.1 v.2.2 ∈ (L.foldl (mergeStep S cx cz m face) (st, mask)).2
            then 1 else 0) =
          st.quads.countP (fun q => decide (q.face.index = face.index ∧ v ∈ q.cells)) +
          (if bbIndex S v.1 v.2.1 v.2.2 ∈ mask then 1 else 0)) ∧
        ((bbIndex S v.1 v.2.1 v.2.2 ∈ mask → ∃ u ∈ L, cellOf face u = v) →
          bbIndex S v.1 v.2.1 v.2.2 ∉ (L.foldl (mergeStep S cx cz m face) (st, mask)).2)) := by
  intro L
  induction L with
  | nil =>
    intro st mask hL hmask v hv1 hv2 hv3
    refine ⟨rfl, fun hin => ?_⟩
    intro hmem
    obtain ⟨u, hu, _⟩ := hin hmem
    exact absurd hu (List.not_mem_nil u)
  | cons u L ih =>
    intro st mask hL hmask v hv1 hv2 hv3
    have hu := hL u (List.mem_cons_self ..)
    have hubounds := cellOf_lt (S := S) hw hu.1 hu.2.1 hu.2.2
    by_cases hc : bbContains S mask (cellOf face u).1 (cellOf face u).2.1
        (cellOf face u).2.2 = true
    · -- a quad is emitted at the scanned cell
      rw [List.foldl_cons, mergeStep_emit S cx cz m face st mask u hc]
      have hcm : bbIndex S (cellOf face u).1 (cellOf face u).2.1 (cellOf face u).2.2 ∈
          mask := by simpa [bbContains] using hc
      obtain ⟨lj, lk, hlj, hlk, hdim, hcells⟩ :=
        expand_face_sound S m mask face (cellOf face u) hubounds.1 hubounds.2.1
          hubounds.2.2 hcm
      set c0 := cellOf face u with hc0
      set dim := expand_face S m mask face c0 with hdimdef
      set mask2 := (boxTriples dim).foldl
        (fun mk d => bbRemove S mk (c0.1 + d.1) (c0.2.1 + d.2.1) (c0.2.2 + d.2.2)) mask
        with hmask2
      -- every box cell is a run cell: masked, in range, same block type
      have hboxcell : ∀ d : ℕ × ℕ × ℕ, d.1 < dim.1 → d.2.1 < dim.2.1 → d.2.2 < dim.2.2 →
          (bbIndex S (vadd c0 d).1 (vadd c0 d).2.1 (vadd c0 d).2.2 ∈ mask ∧
           ((vadd c0 d).1 < S ∧ (vadd c0 d).2.1 < S ∧ (vadd c0 d).2.2 < S) ∧
           (m.blocks (vadd c0 d).1 (vadd c0 d).2.1 (vadd c0 d).2.2).blocktype =
             (m.blocks c0.1 c0.2.1 c0.2.2).blocktype) := by
        intro d hd1 hd2 hd3
        rw [hdim] at hd1 hd2 hd3
        obtain ⟨j, k, hj, hk, rfl⟩ := box_to_jk hw hlj hlk hd1 hd2 hd3
        exact hcells j k hj hk
      -- the new mask: box indices removed
      have hmask2mem : ∀ n : ℕ, n ∈ mask2 ↔
          (n ∈ mask ∧ ∀ d ∈ boxTriples dim,
            bbIndex S (c0.1 + d.1) (c0.2.1 + d.2.1) (c0.2.2 + d.2.2) ≠ n) := by
        intro n
        rw [hmask2]
        exact removal_mem S c0 dim mask n
      -- side conditions for the induction hypothesis
      have hmask2OK : ∀ n ∈ mask2, ∃ w : ℕ × ℕ × ℕ, (w.1 < S ∧ w.2.1 < S ∧ w.2.2 < S) ∧
          n = bbIndex S w.1 w.2.1 w.2.2 := by
        intro n hn
        exact hmask n ((hmask2mem n).1 hn).1
      have hLtail : ∀ t ∈ L, t.1 < S ∧ t.2.1 < S ∧ t.2.2 < S :=
        fun t ht => hL t (List.mem_cons_of_mem u ht)
      set Q : Quad := ⟨face, c0, dim, (m.blocks c0.1 c0.2.1 c0.2.2).blocktype, mask⟩
        with hQ
      have hQcells : ∀ c : ℕ × ℕ × ℕ, c ∈ Q.cells ↔
          ∃ d : ℕ × ℕ × ℕ, (d.1 < dim.1 ∧ d.2.1 < dim.2.1 ∧ d.2.2 < dim.2.2) ∧
            c = vadd c0 d := fun c => quad_cells_mem Q c
      have hquads : (emitState S cx cz m face st mask c0).quads = st.quads ++ [Q] := by
        rw [emitState_quads]
      obtain ⟨ihc, ihe⟩ :=
        ih (emitState S cx cz m face st mask c0) mask2 hLtail hmask2OK v hv1 hv2 hv3
      -- membership of v in the new quad decides everything
      by_cases hvQ : v ∈ Q.cells
      · obtain ⟨d0, hd0, hvd0⟩ := hQcells v |>.1 hvQ
        have hvmask : bbIndex S v.1 v.2.1 v.2.2 ∈ mask := by
          rw [hvd0]
          exact (hboxcell d0 hd0.1 hd0.2.1 hd0.2.2).1
        have hvmask2 : bbIndex S v.1 v.2.1 v.2.2 ∉ mask2 := by
          rw [hmask2mem]
          rintro ⟨-, hall⟩
          refine hall d0 (mem_boxTriples.2 hd0) ?_
          rw [hvd0]
          rfl
        refine ⟨?_, fun _ => ihe (fun hm2 => absurd hm2 hvmask2)⟩
        rw [ihc, hquads]
        have h1 : List.countP (fun q => decide (q.face.index = face.index ∧ v ∈ q.cells))
            (st.quads ++ [Q]) =
            List.countP (fun q => decide (q.face.index = face.index ∧ v ∈ q.cells))
              st.quads + 1 := by
          rw [List.countP_append]
          simp [List.countP_cons, hvQ]
        rw [h1, if_pos hvmask, if_neg hvmask2]
      · -- v is not covered by the new quad: nothing changes for v
        have hbit : (bbIndex S v.1 v.2.1 v.2.2 ∈ mask2) ↔
            (bbIndex S v.1 v.2.1 v.2.2 ∈ mask) := by
          rw [hmask2mem]
          constructor
          · exact fun h => h.1
          · intro h
            refine ⟨h, fun d hd he => ?_⟩
            have hdb := mem_boxTriples.1 hd
            have hcell := hboxcell d hdb.1 hdb.2.1 hdb.2.2
            have hinj := bbIndex_inj (S := S) hcell.2.1.2.1 hcell.2.1.2.2 hv2 hv3 he
            refine hvQ ((hQcells v).2 ⟨d, hdb, ?_⟩)
            have h1 := hinj.1
            have h2 := hinj.2.1
            have h3 := hinj.2.2
            simp only [vadd] at h1 h2 h3 ⊢
            exact Prod.ext h1.symm (Prod.ext h2.symm h3.symm)
        constructor
        · rw [ihc, hquads]
          have h1 : List.countP (fun q => decide (q.face.index = face.index ∧ v ∈ q.cells))
              (st.quads ++ [Q]) =
              List.countP (fun q => decide (q.face.index = face.index ∧ v ∈ q.cells))
                st.quads := by
            rw [List.countP_append]
            simp [List.countP_cons, hvQ]
          rw [h1]
          simp only [hbit]
        · intro hin
          refine ihe (fun hm2 => ?_)
          have hm : bbIndex S v.1 v.2.1 v.2.2 ∈ mask := hbit.1 hm2
          obtain ⟨u', hu', hcu'⟩ := hin hm
          rcases List.mem_cons.1 hu' with rfl | hu'
          · -- the scanned cell equals v, but v is not in the quad containing it
            exfalso
            have hc0v : c0 = v := hcu'
            have : v ∈ Q.cells := by
              refine (hQcells v).2 ⟨(0, 0, 0), ⟨?_, ?_, ?_⟩, ?_⟩
              · rw [hdim]; simp [vadd, vmul]
              · rw [hdim]; simp [vadd, vmul]
              · rw [hdim]; simp [vadd, vmul]
              · rw [← hc0v, vadd_zero]
            exact hvQ this
          · exact ⟨u', hu', hcu'⟩
    · -- the scanned cell is not masked: no change
      rw [List.foldl_cons, mergeStep_skip S cx cz m face st mask u hc]
      have hLtail : ∀ t ∈ L, t.1 < S ∧ t.2.1 < S ∧ t.2.2 < S :=
        fun t ht => hL t (List.mem_cons_of_mem u ht)
      obtain ⟨ihc, ihe⟩ := ih st mask hLtail hmask v hv1 hv2 hv3
      refine ⟨ihc, fun hin => ihe (fun hm => ?_)⟩
      obtain ⟨u', hu', hcu'⟩ := hin hm
      rcases List.mem_cons.1 hu' with rfl | hu'
      · exfalso
        apply hc
        simp only [bbContains, decide_eq_true_eq]
        rw [hcu']
        exact hm
      · exact ⟨u', hu', hcu'⟩

theorem merge_fold_other (S : ℕ) (cx cz : ℤ) (m : Map) (face : Face) (j : ℕ)
    (hne : face.index ≠ j) (v : ℕ × ℕ × ℕ) :
    ∀ (L : List (ℕ × ℕ × ℕ)) (st : MeshState) (mask : Finset ℕ),
      (L.foldl (mergeStep S cx cz m face) (st, mask)).1.quads.countP
          (fun q => decide (q.face.index = j ∧ v ∈ q.cells)) =
        st.quads.countP (fun q => decide (q.face.index = j ∧ v ∈ q.cells)) := by
  intro L
  induction L with
  | nil => intro st mask; rfl
  | cons u L ih =>
    intro st mask
    by_cases hc : bbContains S mask (cellOf face u).1 (cellOf face u).2.1
        (cellOf face u).2.2 = true
    · rw [List.foldl_cons, mergeStep_emit S cx cz m face st mask u hc, ih,
        emitState_quads, List.countP_append]
      simp [List.countP_cons, hne]
    · rw [List.foldl_cons, mergeStep_skip S cx cz m face st mask u hc, ih]

theorem merge_fold_quads (S : ℕ) (cx cz : ℤ) (m : Map) (face : Face) (hw : FaceWF face)
    (hf : face ∈ faces) :
    ∀ (L : List (ℕ × ℕ × ℕ)) (st : MeshState) (mask : Finset ℕ),
      (∀ t ∈ L, t.1 < S ∧ t.2.1 < S ∧ t.2.2 < S) →
      mask ⊆ exposure_mask S m face →
      (∀ q ∈ st.quads, QuadOK S m q) →
      ∀ q ∈ (L.foldl (mergeStep S cx cz m face) (st, mask)).1.quads, QuadOK S m q := by
  intro L
  induction L with
  | nil => intro st mask _ _ hst; exact hst
  | cons u L ih =>
    intro st mask hL hsub hst
    have hu := hL u (List.mem_cons_self ..)
    have hubounds := cellOf_lt (S := S) hw hu.1 hu.2.1 hu.2.2
    have hLtail : ∀ t ∈ L, t.1 < S ∧ t.2.1 < S ∧ t.2.2 < S :=
      fun t ht => hL t (List.mem_cons_of_mem u ht)
    by_cases hc : bbContains S mask (cellOf face u).1 (cellOf face u).2.1
        (cellOf face u).2.2 = true
    · rw [List.foldl_cons, mergeStep_emit S cx cz m face st mask u hc]
      have hcm : bbIndex S (cellOf face u).1 (cellOf face u).2.1 (cellOf face u).2.2 ∈
          mask := by simpa [bbContains] using hc
      obtain ⟨lj, lk, hlj, hlk, hdim, hcells⟩ :=
        expand_face_sound S m mask face (cellOf face u) hubounds.1 hubounds.2.1
          hubounds.2.2 hcm
      set c0 := cellOf face u with hc0
      refine ih (emitState S cx cz m face st mask c0) _ hLtail ?_ ?_
      · -- the shrunk mask is still inside the exposure mask
        intro n hn
        exact hsub ((removal_mem S c0 (expand_face S m mask face c0) mask n).1 hn).1
      · -- all recorded quads, including the new one, are uniform
        rw [emitState_quads]
        intro q hq
        rcases List.mem_append.1 hq with hq | hq
        · exact hst q hq
        · rcases List.mem_singleton.1 hq with rfl
          refine ⟨hf, hsub, rfl, ?_⟩
          intro c hcq
          obtain ⟨d, hd, rfl⟩ := (quad_cells_mem _ c).1 hcq
          rw [hdim] at hd
          obtain ⟨j, k, hj, hk, rfl⟩ := box_to_jk hw hlj hlk hd.1 hd.2.1 hd.2.2
          have h := hcells j k hj hk
          exact ⟨h.2.2, h.1⟩
    · rw [List.foldl_cons, mergeStep_skip S cx cz m face st mask u hc]
      exact ih st mask hLtail hsub hst

theorem exposure_mask_bounds (S : ℕ) (m : Map) (face : Face) :
    ∀ n ∈ exposure_mask S m face, ∃ w : ℕ × ℕ × ℕ,
      (w.1 < S ∧ w.2.1 < S ∧ w.2.2 < S) ∧ n = bbIndex S w.1 w.2.1 w.2.2 := by
  intro n hn
  rw [exposure_mask, exposure_fold_mem] at hn
  rcases hn with hn | ⟨t, ht, _, _, rfl⟩
  · exact absurd hn (Finset.not_mem_empty n)
  · exact ⟨t, mem_allTriples.1 ht, rfl⟩

/-! ## Per-face and whole-mesh counting -/

theorem mesh_face_count_self (S : ℕ) (cx cz : ℤ) (m : Map) (f : Face) (hw : FaceWF f)
    (v : ℕ × ℕ × ℕ) (hv1 : v.1 < S) (hv2 : v.2.1 < S) (hv3 : v.2.2 < S)
    (acc : MeshState × List (ℕ × ℕ)) :
    (mesh_face S cx cz m acc f).1.quads.countP
        (fun q => decide (q.face.index = f.index ∧ v ∈ q.cells)) =
      acc.1.quads.countP (fun q => decide (q.face.index = f.index ∧ v ∈ q.cells)) +
        (if bbIndex S v.1 v.2.1 v.2.2 ∈ exposure_mask S m f then 1 else 0) := by
  obtain ⟨hc, he⟩ := merge_fold_count S cx cz m f hw (allTriples S) acc.1
    (exposure_mask S m f) (fun t ht => mem_allTriples.1 ht)
    (exposure_mask_bounds S m f) v hv1 hv2 hv3
  have hempty := he (fun _ => cellOf_surj hw hv1 hv2 hv3)
  rw [if_neg hempty] at hc
  show ((allTriples S).foldl (mergeStep S cx cz m f)
    (acc.1, exposure_mask S m f)).1.quads.countP _ = _
  omega

theorem mesh_face_count_other (S : ℕ) (cx cz : ℤ) (m : Map) (g : Face) (j : ℕ)
    (hne : g.index ≠ j) (v : ℕ × ℕ × ℕ) (acc : MeshState × List (ℕ × ℕ)) :
    (mesh_face S cx cz m acc g).1.quads.countP
        (fun q => decide (q.face.index = j ∧ v ∈ q.cells)) =
      acc.1.quads.countP (fun q => decide (q.face.index = j ∧ v ∈ q.cells)) :=
  merge_fold_other S cx cz m g j hne v (allTriples S) acc.1 (exposure_mask S m g)

theorem faces_fold_count_none (S : ℕ) (cx cz : ℤ) (m : Map) (j : ℕ) (v : ℕ × ℕ × ℕ) :
    ∀ (FS : List Face), (∀ g ∈ FS, g.index ≠ j) → ∀ acc : MeshState × List (ℕ × ℕ),
      (FS.foldl (mesh_face S cx cz m) acc).1.quads.countP
          (fun q => decide (q.face.index = j ∧ v ∈ q.cells)) =
        acc.1.quads.countP (fun q => decide (q.face.index = j ∧ v ∈ q.cells)) := by
  intro FS
  induction FS with
  | nil => intro _ acc; rfl
  | cons g FS ih =>
    intro hFS acc
    rw [List.foldl_cons, ih (fun g' hg' => hFS g' (List.mem_cons_of_mem g hg')),
      mesh_face_count_other S cx cz m g j (hFS g (List.mem_cons_self ..)) v acc]

theorem faces_fold_count (S : ℕ) (cx cz : ℤ) (m : Map) (f : Face) (hw : FaceWF f)
    (v : ℕ × ℕ × ℕ) (hv1 : v.1 < S) (hv2 : v.2.1 < S) (hv3 : v.2.2 < S) :
    ∀ (FS : List Face), (∀ g ∈ FS, FaceWF g) →
      FS.filter (fun g => decide (g.index = f.index)) = [f] →
      ∀ acc : MeshState × List (ℕ × ℕ),
        (FS.foldl (mesh_face S cx cz m) acc).1.quads.countP
            (fun q => decide (q.face.index = f.index ∧ v ∈ q.cells)) =
          acc.1.quads.countP (fun q => decide (q.face.index = f.index ∧ v ∈ q.cells)) +
            (if bbIndex S v.1 v.2.1 v.2.2 ∈ exposure_mask S m f then 1 else 0) := by
  intro FS
  induction FS with
  | nil => intro _ hfil; exact absurd hfil (by simp)
  | cons g FS ih =>
    intro hFS hfil acc
    rw [List.filter_cons] at hfil
    by_cases hg : g.index = f.index
    · rw [if_pos (by simpa using hg)] at hfil
      have heq : g = f := (List.cons.inj hfil).1
      have hnil : FS.filter (fun g' => decide (g'.index = f.index)) = [] :=
        (List.cons.inj hfil).2
      have hnone : ∀ g' ∈ FS, g'.index ≠ f.index := by
        intro g' hg'
        simpa using List.filter_eq_nil_iff.1 hnil g' hg'
      rw [List.foldl_cons, heq, faces_fold_count_none S cx cz m f.index v FS hnone,
        mesh_face_count_self S cx cz m f hw v hv1 hv2 hv3 acc]
    · rw [if_neg (by simpa using hg)] at hfil
      rw [List.foldl_cons, ih (fun g' hg' => hFS g' (List.mem_cons_of_mem g hg')) hfil,
        mesh_face_count_other S cx cz m g f.index hg v acc]

/-- **C1.** For every grid and every face orientation, each in-range cell is
covered by exactly one emitted quad of that orientation when its face is in
the exposure mask, and by none otherwise. -/
theorem c1_mesh_covers_exposed (S : ℕ) (cx cz : ℤ) (m : Map) (f : Face)
    (hf : f ∈ faces) (x y z : ℕ) (hx : x < S) (hy : y < S) (hz : z < S) :
    (mesh_gen S cx cz m).quads.countP
        (fun q => decide (q.face.index = f.index ∧ ((x, y, z) : ℕ × ℕ × ℕ) ∈ q.cells)) =
      (if bbIndex S x y z ∈ exposure_mask S m f then 1 else 0) := by
  have hwf := faces_wf f hf
  have hfilter : faces.filter (fun g => decide (g.index = f.index)) = [f] := by
    fin_cases hf <;> rfl
  have h := faces_fold_count S cx cz m f hwf (x, y, z) hx hy hz faces
    (fun g hg => faces_wf g hg) hfilter (⟨[], [], [], [], []⟩, List.replicate 6 (0, 0))
  simpa [mesh_gen] using h

/-- Witness for C1: the hypotheses are satisfiable (the front face of a
`1 × 1 × 1` all-stone grid). -/
theorem c1_mesh_covers_exposed_witness :
    (sampleQuad.face ∈ faces) ∧ ((0 : ℕ) < 1) ∧
    ((mesh_gen 1 0 0 stoneMap).quads.countP
        (fun q => decide (q.face.index = sampleQuad.face.index ∧
          ((0, 0, 0) : ℕ × ℕ × ℕ) ∈ q.cells)) =
      (if bbIndex 1 0 0 0 ∈ exposure_mask 1 stoneMap sampleQuad.face then 1 else 0)) :=
  ⟨by decide, Nat.zero_lt_one,
    c1_mesh_covers_exposed 1 0 0 stoneMap sampleQuad.face (by decide) 0 0 0
      Nat.zero_lt_one Nat.zero_lt_one Nat.zero_lt_one⟩

theorem faces_fold_quads (S : ℕ) (cx cz : ℤ) (m : Map) :
    ∀ (FS : List Face), (∀ g ∈ FS, g ∈ faces) → ∀ acc : MeshState × List (ℕ × ℕ),
      (∀ q ∈ acc.1.quads, QuadOK S m q) →
      ∀ q ∈ (FS.foldl (mesh_face S cx cz m) acc).1.quads, QuadOK S m q := by
  intro FS
  induction FS with
  | nil => intro _ acc hacc; exact hacc
  | cons g FS ih =>
    intro hFS acc hacc
    rw [List.foldl_cons]
    refine ih (fun g' hg' => hFS g' (List.mem_cons_of_mem g hg')) _ ?_
    show ∀ q ∈ ((allTriples S).foldl (mergeStep S cx cz m g)
      (acc.1, exposure_mask S m g)).1.quads, QuadOK S m q
    exact merge_fold_quads S cx cz m g (faces_wf g (hFS g (List.mem_cons_self ..)))
      (hFS g (List.mem_cons_self ..)) (allTriples S) acc.1 (exposure_mask S m g)
      (fun t ht => mem_allTriples.1 ht) (fun n hn => hn) hacc

/-- **C3.** Every quad emitted by `mesh_gen` is uniform: its covered cells all
carry the seed cell's block type, each was present in the orientation's mask
at the moment the quad was emitted, and that mask is part of the orientation's
exposure mask. -/
theorem c3_quad_uniform (S : ℕ) (cx cz : ℤ) (m : Map) :
    ∀ q ∈ (mesh_gen S cx cz m).quads, QuadOK S m q := by
  have h := faces_fold_quads S cx cz m faces (fun g hg => hg)
    (⟨[], [], [], [], []⟩, List.replicate 6 (0, 0)) (by intro q hq; cases hq)
  intro q hq
  exact h q hq

/-- Witness for C3: the hypothesis is satisfiable (the front quad of a
`1 × 1 × 1` all-stone grid is among the emitted quads). -/
theorem c3_quad_uniform_witness :
    sampleQuad ∈ (mesh_gen 1 0 0 stoneMap).quads ∧ QuadOK 1 stoneMap sampleQuad :=
  ⟨by decide, c3_quad_uniform 1 0 0 stoneMap sampleQuad (by decide)⟩

/-! ## Geometry array consistency (claim C10) -/

theorem meshInv_emit (S : ℕ) (cx cz : ℤ) (m : Map) (face : Face) (hw : FaceWF face)
    (st : MeshState) (mask : Finset ℕ) (v : ℕ × ℕ × ℕ) (hinv : meshInv st) :
    meshInv (emitState S cx cz m face st mask v) := by
  obtain ⟨hn, hb, hv, he⟩ := hinv
  unfold meshInv emitState
  dsimp only
  refine ⟨?_, ?_, ?_, ?_⟩
  · simp [hw.2, hn]
  · simp [hw.2, hb]
  · simp only [List.length_append, List.length_map, hw.2, List.length_singleton, hv]
    omega
  · rw [he]
    simp only [List.length_append, List.length_singleton, List.range_succ,
      List.flatMap_append, List.flatMap_cons, List.flatMap_nil, List.append_nil]
    congr 1
    rw [hv]

theorem meshInv_merge_fold (S : ℕ) (cx cz : ℤ) (m : Map) (face : Face) (hw : FaceWF face) :
    ∀ (L : List (ℕ × ℕ × ℕ)) (st : MeshState) (mask : Finset ℕ), meshInv st →
      meshInv (L.foldl (mergeStep S cx cz m face) (st, mask)).1 := by
  intro L
  induction L with
  | nil => intro st mask h; exact h
  | cons u L ih =>
    intro st mask h
    by_cases hc : bbContains S mask (cellOf face u).1 (cellOf face u).2.1
        (cellOf face u).2.2 = true
    · rw [List.foldl_cons, mergeStep_emit S cx cz m face st mask u hc]
      exact ih _ _ (meshInv_emit S cx cz m face hw st mask (cellOf face u) h)
    · rw [List.foldl_cons, mergeStep_skip S cx cz m face st mask u hc]
      exact ih st mask h

theorem meshInv_faces_fold (S : ℕ) (cx cz : ℤ) (m : Map) :
    ∀ (FS : List Face), (∀ g ∈ FS, FaceWF g) → ∀ acc : MeshState × List (ℕ × ℕ),
      meshInv acc.1 → meshInv (FS.foldl (mesh_face S cx cz m) acc).1 := by
  intro FS
  induction FS with
  | nil => intro _ acc h; exact h
  | cons g FS ih =>
    intro hFS acc h
    rw [List.foldl_cons]
    refine ih (fun g' hg' => hFS g' (List.mem_cons_of_mem g hg')) _ ?_
    exact meshInv_merge_fold S cx cz m g (hFS g (List.mem_cons_self ..)) (allTriples S)
      acc.1 (exposure_mask S m g) h

theorem merge_fold_elements (S : ℕ) (cx cz : ℤ) (m : Map) (face : Face) :
    ∀ (L : List (ℕ × ℕ × ℕ)) (st : MeshState) (mask : Finset ℕ),
      ∃ d, (L.foldl (mergeStep S cx cz m face) (st, mask)).1.elements =
        st.elements ++ d := by
  intro L
  induction L with
  | nil => intro st mask; exact ⟨[], (List.append_nil _).symm⟩
  | cons u L ih =>
    intro st mask
    by_cases hc : bbContains S mask (cellOf face u).1 (cellOf face u).2.1
        (cellOf face u).2.2 = true
    · rw [List.foldl_cons, mergeStep_emit S cx cz m face st mask u hc]
      obtain ⟨d, hd⟩ := ih (emitState S cx cz m face st mask (cellOf face u))
        ((boxTriples (expand_face S m mask face (cellOf face u))).foldl
          (fun mk dd => bbRemove S mk ((cellOf face u).1 + dd.1)
            ((cellOf face u).2.1 + dd.2.1) ((cellOf face u).2.2 + dd.2.2)) mask)
      refine ⟨face_elements.map (fun e => st.vertices.length + e) ++ d, ?_⟩
      rw [hd]
      show (st.elements ++ _) ++ d = _
      rw [List.append_assoc]
    · rw [List.foldl_cons, mergeStep_skip S cx cz m face st mask u hc]
      exact ih st mask

theorem mesh_face_elements (S : ℕ) (cx cz : ℤ) (m : Map)
    (acc : MeshState × List (ℕ × ℕ)) (g : Face) :
    ∃ d, (mesh_face S cx cz m acc g).1.elements = acc.1.elements ++ d :=
  merge_fold_elements S cx cz m g (allTriples S) acc.1 (exposure_mask S m g)

theorem mesh_face_snd (S : ℕ) (cx cz : ℤ) (m : Map)
    (acc : MeshState × List (ℕ × ℕ)) (g : Face) :
    (mesh_face S cx cz m acc g).2 =
      acc.2.set g.index (acc.1.elements.length,
        (mesh_face S cx cz m acc g).1.elements.length - acc.1.elements.length) := rfl

theorem fold_ranges_len (S : ℕ) (cx cz : ℤ) (m : Map) :
    ∀ (FS : List Face) (acc : MeshState × List (ℕ × ℕ)),
      (FS.foldl (mesh_face S cx cz m) acc).2.length = acc.2.length := by
  intro FS
  induction FS with
  | nil => intro acc; rfl
  | cons g FS ih =>
    intro acc
    rw [List.foldl_cons, ih, mesh_face_snd, List.length_set]

theorem fold_ranges_miss (S : ℕ) (cx cz : ℤ) (m : Map) :
    ∀ (FS : List Face) (acc : MeshState × List (ℕ × ℕ)) (i : ℕ),
      (∀ g ∈ FS, g.index ≠ i) →
      (FS.foldl (mesh_face S cx cz m) acc).2.getD i (0, 0) = acc.2.getD i (0, 0) := by
  intro FS
  induction FS with
  | nil => intro acc i _; rfl
  | cons g FS ih =>
    intro acc i hFS
    rw [List.foldl_cons, ih _ i (fun g' hg' => hFS g' (List.mem_cons_of_mem g hg')),
      mesh_face_snd]
    rw [List.getD_eq_getElem?_getD, List.getElem?_set_ne (hFS g (List.mem_cons_self ..)),
      ← List.getD_eq_getElem?_getD]

theorem fold_ranges_hit (S : ℕ) (cx cz : ℤ) (m : Map) (FS1 : List Face) (g : Face)
    (FS2 : List Face) (acc : MeshState × List (ℕ × ℕ))
    (hFS2 : ∀ g' ∈ FS2, g'.index ≠ g.index) (hlen : g.index < acc.2.length) :
    ((FS1 ++ g :: FS2).foldl (mesh_face S cx cz m) acc).2.getD g.index (0, 0) =
      ((FS1.foldl (mesh_face S cx cz m) acc).1.elements.length,
       (mesh_face S cx cz m (FS1.foldl (mesh_face S cx cz m) acc) g).1.elements.length -
         (FS1.foldl (mesh_face S cx cz m) acc).1.elements.length) := by
  rw [List.foldl_append, List.foldl_cons,
    fold_ranges_miss S cx cz m FS2 _ g.index hFS2, mesh_face_snd]
  have hmidlen : (FS1.foldl (mesh_face S cx cz m) acc).2.length = acc.2.length :=
    fold_ranges_len S cx cz m FS1 acc
  rw [List.getD_eq_getElem?_getD, List.getElem?_set_self (by omega), Option.getD_some]

/-- **C10.** The geometry arrays of a generated mesh are mutually consistent:
normals, block-type ids and vertices have equal lengths — four entries per
emitted quad — the element array has six entries per quad, every element index
is below the vertex count, and the six `face_ranges`, in orientation order,
are contiguous and partition the element array exactly. -/
theorem c10_mesh_arrays (S : ℕ) (cx cz : ℤ) (m : Map) :
    (mesh_gen S cx cz m).normals.length = (mesh_gen S cx cz m).vertices.length ∧
    (mesh_gen S cx cz m).blocktypes.length = (mesh_gen S cx cz m).vertices.length ∧
    (mesh_gen S cx cz m).vertices.length = 4 * (mesh_gen S cx cz m).quads.length ∧
    (mesh_gen S cx cz m).elements.length = 6 * (mesh_gen S cx cz m).quads.length ∧
    (mesh_gen S cx cz m).elements.all
      (fun e => decide (e < (mesh_gen S cx cz m).vertices.length)) = true ∧
    (mesh_gen S cx cz m).face_ranges.length = 6 ∧
    ((mesh_gen S cx cz m).face_ranges.getD 0 (0, 0)).1 = 0 ∧
    ((mesh_gen S cx cz m).face_ranges.getD 1 (0, 0)).1 =
      ((mesh_gen S cx cz m).face_ranges.getD 0 (0, 0)).1 +
        ((mesh_gen S cx cz m).face_ranges.getD 0 (0, 0)).2 ∧
    ((mesh_gen S cx cz m).face_ranges.getD 2 (0, 0)).1 =
      ((mesh_gen S cx cz m).face_ranges.getD 1 (0, 0)).1 +
        ((mesh_gen S cx cz m).face_ranges.getD 1 (0, 0)).2 ∧
    ((mesh_gen S cx cz m).face_ranges.getD 3 (0, 0)).1 =
      ((mesh_gen S cx cz m).face_ranges.getD 2 (0, 0)).1 +
        ((mesh_gen S cx cz m).face_ranges.getD 2 (0, 0)).2 ∧
    ((mesh_gen S cx cz m).face_ranges.getD 4 (0, 0)).1 =
      ((mesh_gen S cx cz m).face_ranges.getD 3 (0, 0)).1 +
        ((mesh_gen S cx cz m).face_ranges.getD 3 (0, 0)).2 ∧
    ((mesh_gen S cx cz m).face_ranges.getD 5 (0, 0)).1 =
      ((mesh_gen S cx cz m).face_ranges.getD 4 (0, 0)).1 +
        ((mesh_gen S cx cz m).face_ranges.getD 4 (0, 0)).2 ∧
    ((mesh_gen S cx cz m).face_ranges.getD 5 (0, 0)).1 +
      ((mesh_gen S cx cz m).face_ranges.getD 5 (0, 0)).2 =
      (mesh_gen S cx cz m).elements.length := by
  have p6 : ∀ i, i < 6 → i < faces.length := by decide
  set A0 : MeshState × List (ℕ × ℕ) :=
    ((⟨[], [], [], [], []⟩ : MeshState), List.replicate 6 ((0 : ℕ), (0 : ℕ))) with hA0
  set A1 := mesh_face S cx cz m A0 (faces.get ⟨0, p6 0 (by omega)⟩) with hA1
  set A2 := mesh_face S cx cz m A1 (faces.get ⟨1, p6 1 (by omega)⟩) with hA2
  set A3 := mesh_face S cx cz m A2 (faces.get ⟨2, p6 2 (by omega)⟩) with hA3
  set A4 := mesh_face S cx cz m A3 (faces.get ⟨3, p6 3 (by omega)⟩) with hA4
  set A5 := mesh_face S cx cz m A4 (faces.get ⟨4, p6 4 (by omega)⟩) with hA5
  set A6 := mesh_face S cx cz m A5 (faces.get ⟨5, p6 5 (by omega)⟩) with hA6
  have hInv : meshInv (faces.foldl (mesh_face S cx cz m) A0).1 :=
    meshInv_faces_fold S cx cz m faces faces_wf A0 ⟨rfl, rfl, rfl, rfl⟩
  obtain ⟨hn, hb, hv, he⟩ := hInv
  -- the per-orientation ranges in terms of the六 intermediate states
  have hG0 : (faces.foldl (mesh_face S cx cz m) A0).2.getD 0 (0, 0) =
      (A0.1.elements.length, A1.1.elements.length - A0.1.elements.length) :=
    fold_ranges_hit S cx cz m (faces.take 0) (faces.get ⟨0, p6 0 (by omega)⟩)
      (faces.drop 1) A0 (by decide : ∀ g' ∈ List.drop 1 faces, g'.index ≠ 0)
      (by decide : (0 : ℕ) < 6)
  have hG1 : (faces.foldl (mesh_face S cx cz m) A0).2.getD 1 (0, 0) =
      (A1.1.elements.length, A2.1.elements.length - A1.1.elements.length) :=
    fold_ranges_hit S cx cz m (faces.take 1) (faces.get ⟨1, p6 1 (by omega)⟩)
      (faces.drop 2) A0 (by decide : ∀ g' ∈ List.drop 2 faces, g'.index ≠ 1)
      (by decide : (1 : ℕ) < 6)
  have hG2 : (faces.foldl (mesh_face S cx cz m) A0).2.getD 2 (0, 0) =
      (A2.1.elements.length, A3.1.elements.length - A2.1.elements.length) :=
    fold_ranges_hit S cx cz m (faces.take 2) (faces.get ⟨2, p6 2 (by omega)⟩)
      (faces.drop 3) A0 (by decide : ∀ g' ∈ List.drop 3 faces, g'.index ≠ 2)
      (by decide : (2 : ℕ) < 6)
  have hG3 : (faces.foldl (mesh_face S cx cz m) A0).2.getD 3 (0, 0) =
      (A3.1.elements.length, A4.1.elements.length - A3.1.elements.length) :=
    fold_ranges_hit S cx cz m (faces.take 3) (faces.get ⟨3, p6 3 (by omega)⟩)
      (faces.drop 4) A0 (by decide : ∀ g' ∈ List.drop 4 faces, g'.index ≠ 3)
      (by decide : (3 : ℕ) < 6)
  have hG4 : (faces.foldl (mesh_face S cx cz m) A0).2.getD 4 (0, 0) =
      (A4.1.elements.length, A5.1.elements.length - A4.1.elements.length) :=
    fold_ranges_hit S cx cz m (faces.take 4) (faces.get ⟨4, p6 4 (by omega)⟩)
      (faces.drop 5) A0 (by decide : ∀ g' ∈ List.drop 5 faces, g'.index ≠ 4)
      (by decide : (4 : ℕ) < 6)
  have hG5 : (faces.foldl (mesh_face S cx cz m) A0).2.getD 5 (0, 0) =
      (A5.1.elements.length, A6.1.elements.length - A5.1.elements.length) :=
    fold_ranges_hit S cx cz m (faces.take 5) (faces.get ⟨5, p6 5 (by omega)⟩)
      (faces.drop 6) A0 (by decide : ∀ g' ∈ List.drop 6 faces, g'.index ≠ 5)
      (by decide : (5 : ℕ) < 6)
  -- element lists only grow from one face to the next
  obtain ⟨d0, hd0⟩ := mesh_face_elements S cx cz m A0 (faces.get ⟨0, p6 0 (by omega)⟩)
  obtain ⟨d1, hd1⟩ := mesh_face_elements S cx cz m A1 (faces.get ⟨1, p6 1 (by omega)⟩)
  obtain ⟨d2, hd2⟩ := mesh_face_elements S cx cz m A2 (faces.get ⟨2, p6 2 (by omega)⟩)
  obtain ⟨d3, hd3⟩ := mesh_face_elements S cx cz m A3 (faces.get ⟨3, p6 3 (by omega)⟩)
  obtain ⟨d4, hd4⟩ := mesh_face_elements S cx cz m A4 (faces.get ⟨4, p6 4 (by omega)⟩)
  obtain ⟨d5, hd5⟩ := mesh_face_elements S cx cz m A5 (faces.get ⟨5, p6 5 (by omega)⟩)
  have hl1 : A1.1.elements.length = A0.1.elements.length + d0.length := by
    rw [hA1, hd0, List.length_append]
  have hl2 : A2.1.elements.length = A1.1.elements.length + d1.length := by
    rw [hA2, hd1, List.length_append]
  have hl3 : A3.1.elements.length = A2.1.elements.length + d2.length := by
    rw [hA3, hd2, List.length_append]
  have hl4 : A4.1.elements.length = A3.1.elements.length + d3.length := by
    rw [hA4, hd3, List.length_append]
  have hl5 : A5.1.elements.length = A4.1.elements.length + d4.length := by
    rw [hA5, hd4, List.length_append]
  have hl6 : A6.1.elements.length = A5.1.elements.length + d5.length := by
    rw [hA6, hd5, List.length_append]
  have hl0 : A0.1.elements.length = 0 := rfl
  have hfin : (faces.foldl (mesh_face S cx cz m) A0).1.elements.length =
      A6.1.elements.length := rfl
  refine ⟨hn, hb, hv, ?_, ?_, ?_, ?_, ?_, ?_, ?_, ?_, ?_, ?_⟩
  · -- six elements per quad
    show (faces.foldl (mesh_face S cx cz m) A0).1.elements.length = _
    rw [he]
    have hlen : ∀ Q : ℕ, ((List.range Q).flatMap
        fun q => List.map (fun e => 4 * q + e) face_elements).length = 6 * Q := by
      intro Q
      induction Q with
      | zero => rfl
      | succ n ihn =>
        rw [List.range_succ, List.flatMap_append, List.length_append, ihn,
          List.flatMap_cons, List.flatMap_nil, List.append_nil, List.length_map]
        rw [show face_elements.length = 6 from rfl]
        omega
    exact hlen _
  · -- every element index references an existing vertex
    rw [List.all_eq_true]
    intro e hemem
    have hemem2 : e ∈ (faces.foldl (mesh_face S cx cz m) A0).1.elements := hemem
    rw [he] at hemem2
    obtain ⟨q, hq, hmap⟩ := List.mem_flatMap.1 hemem2
    obtain ⟨fe, hfe, rfl⟩ := List.mem_map.1 hmap
    have hq6 : q < (faces.foldl (mesh_face S cx cz m) A0).1.quads.length :=
      List.mem_range.1 hq
    have hfe3 : fe ≤ 3 := by
      simp only [face_elements, List.mem_cons, List.not_mem_nil, or_false] at hfe
      rcases hfe with rfl | rfl | rfl | rfl | rfl | rfl <;> omega
    simp only [decide_eq_true_eq]
    show 4 * q + fe < (faces.foldl (mesh_face S cx cz m) A0).1.vertices.length
    rw [hv]
    omega
  · exact fold_ranges_len S cx cz m faces A0
  · show ((faces.foldl (mesh_face S cx cz m) A0).2.getD 0 (0, 0)).1 = 0
    rw [hG0, hl0]
  · show ((faces.foldl (mesh_face S cx cz m) A0).2.getD 1 (0, 0)).1 =
        ((faces.foldl (mesh_face S cx cz m) A0).2.getD 0 (0, 0)).1 +
        ((faces.foldl (mesh_face S cx cz m) A0).2.getD 0 (0, 0)).2
    rw [hG0, hG1]
    show A1.1.elements.length = A0.1.elements.length +
      (A1.1.elements.length - A0.1.elements.length)
    omega
  · show ((faces.foldl (mesh_face S cx cz m) A0).2.getD 2 (0, 0)).1 =
        ((faces.foldl (mesh_face S cx cz m) A0).2.getD 1 (0, 0)).1 +
        ((faces.foldl (mesh_face S cx cz m) A0).2.getD 1 (0, 0)).2
    rw [hG1, hG2]
    show A2.1.elements.length = A1.1.elements.length +
      (A2.1.elements.length - A1.1.elements.length)
    omega
  · show ((faces.foldl (mesh_face S cx cz m) A0).2.getD 3 (0, 0)).1 =
        ((faces.foldl (mesh_face S cx cz m) A0).2.getD 2 (0, 0)).1 +
        ((faces.foldl (mesh_face S cx cz m) A0).2.getD 2 (0, 0)).2
    rw [hG2, hG3]
    show A3.1.elements.length = A2.1.elements.length +
      (A3.1.elements.length - A2.1.elements.length)
    omega
  · show ((faces.foldl (mesh_face S cx cz m) A0).2.getD 4 (0, 0)).1 =
        ((faces.foldl (mesh_face S cx cz m) A0).2.getD 3 (0, 0)).1 +
        ((faces.foldl (mesh_face S cx cz m) A0).2.getD 3 (0, 0)).2
    rw [hG3, hG4]
    show A4.1.elements.length = A3.1.elements.length +
      (A4.1.elements.length - A3.1.elements.length)
    omega
  · show ((faces.foldl (mesh_face S cx cz m) A0).2.getD 5 (0, 0)).1 =
        ((faces.foldl (mesh_face S cx cz m) A0).2.getD 4 (0, 0)).1 +
        ((faces.foldl (mesh_face S cx cz m) A0).2.getD 4 (0, 0)).2
    rw [hG4, hG5]
    show A5.1.elements.length = A4.1.elements.length +
      (A5.1.elements.length - A4.1.elements.length)
    omega
  · show ((faces.foldl (mesh_face S cx cz m) A0).2.getD 5 (0, 0)).1 +
      ((faces.foldl (mesh_face S cx cz m) A0).2.getD 5 (0, 0)).2 =
      (mesh_gen S cx cz m).elements.length
    rw [hG5]
    show A5.1.elements.length + (A6.1.elements.length - A5.1.elements.length) =
      (faces.foldl (mesh_face S cx cz m) A0).1.elements.length
    rw [hfin]
    omega

/-! ## The chunk cache (claims C4, C5, C8) -/

theorem load_cache (P : ℕ → ℚ → ℚ → ℚ) (powf : ℚ → ℚ → ℚ) (S R : ℕ)
    (st : ChunkLoader) (cx cz : ℤ) (t : ℕ) :
    (ChunkLoader.load P powf S R st cx cz t).cache =
      evict R (insertEntry (cx, cz) (chunk_gen P powf S st.seed cx cz t) st.cache) := rfl

theorem findMin_go_spec :
    ∀ (l : List ((ℤ × ℤ) × Chunk)) (acc : Option ((ℤ × ℤ) × Chunk)) (e : (ℤ × ℤ) × Chunk),
      l.foldl
        (fun acc e =>
          match acc with
          | none => some e
          | some a => if e.2.used_time < a.2.used_time then some e else acc) acc = some e →
      (acc = some e ∨ e ∈ l) ∧ (∀ x ∈ l, e.2.used_time ≤ x.2.used_time) ∧
        (∀ a, acc = some a → e.2.used_time ≤ a.2.used_time) := by
  intro l
  induction l with
  | nil =>
    intro acc e h
    rw [List.foldl_nil] at h
    refine ⟨Or.inl h, by simp, fun a ha => ?_⟩
    rw [h] at ha
    cases ha
    exact le_refl _
  | cons x l ih =>
    intro acc e h
    rw [List.foldl_cons] at h
    cases acc with
    | none =>
      dsimp only at h
      obtain ⟨hmem, hall, hacc⟩ := ih (some x) e h
      refine ⟨?_, ?_, fun a ha => Option.noConfusion ha⟩
      · rcases hmem with he | hm
        · cases he
          exact Or.inr (List.mem_cons_self ..)
        · exact Or.inr (List.mem_cons_of_mem x hm)
      · intro y hy
        rcases List.mem_cons.1 hy with rfl | hy2
        · exact hacc y rfl
        · exact hall y hy2
    | some a =>
      dsimp only at h
      by_cases hlt : x.2.used_time < a.2.used_time
      · rw [if_pos hlt] at h
        obtain ⟨hmem, hall, hacc⟩ := ih (some x) e h
        refine ⟨?_, ?_, ?_⟩
        · rcases hmem with he | hm
          · cases he
            exact Or.inr (List.mem_cons_self ..)
          · exact Or.inr (List.mem_cons_of_mem x hm)
        · intro y hy
          rcases List.mem_cons.1 hy with rfl | hy2
          · exact hacc y rfl
          · exact hall y hy2
        · intro a' ha'
          cases ha'
          have := hacc x rfl
          omega
      · rw [if_neg hlt] at h
        obtain ⟨hmem, hall, hacc⟩ := ih (some a) e h
        refine ⟨?_, ?_, ?_⟩
        · rcases hmem with he | hm
          · exact Or.inl he
          · exact Or.inr (List.mem_cons_of_mem x hm)
        · intro y hy
          rcases List.mem_cons.1 hy with rfl | hy2
          · have := hacc a rfl
            omega
          · exact hall y hy2
        · intro a' ha'
          cases ha'
          exact hacc a rfl

theorem findMinEntry_spec (l : List ((ℤ × ℤ) × Chunk)) (e : (ℤ × ℤ) × Chunk)
    (h : findMinEntry l = some e) :
    e ∈ l ∧ ∀ x ∈ l, e.2.used_time ≤ x.2.used_time := by
  unfold findMinEntry at h
  obtain ⟨hmem, hall, -⟩ := findMin_go_spec l none e h
  rcases hmem with hm | hm
  · exact Option.noConfusion hm
  · exact ⟨hm, hall⟩

theorem findMin_go_some :
    ∀ (l : List ((ℤ × ℤ) × Chunk)) (a : (ℤ × ℤ) × Chunk),
      ∃ e, l.foldl
        (fun acc e =>
          match acc with
          | none => some e
          | some a => if e.2.used_time < a.2.used_time then some e else acc)
        (some a) = some e := by
  intro l
  induction l with
  | nil => intro a; exact ⟨a, rfl⟩
  | cons x l ih =>
    intro a
    rw [List.foldl_cons]
    dsimp only
    by_cases hlt : x.2.used_time < a.2.used_time
    · rw [if_pos hlt]
      exact ih x
    · rw [if_neg hlt]
      exact ih a

theorem findMinEntry_some (l : List ((ℤ × ℤ) × Chunk)) (h : l ≠ []) :
    ∃ e, findMinEntry l = some e := by
  cases l with
  | nil => exact absurd rfl h
  | cons x l =>
    unfold findMinEntry
    rw [List.foldl_cons]
    exact findMin_go_some l x

theorem evictLoop_stop (R : ℕ) :
    ∀ (fuel : ℕ) (l : List ((ℤ × ℤ) × Chunk)),
      l.length ≤ MAX_CHUNKS R → evictLoop R fuel l = l := by
  intro fuel
  cases fuel with
  | zero => intro l _; rfl
  | succ f =>
    intro l h
    rw [evictLoop, if_neg (by omega)]

theorem evictLoop_le (R : ℕ) :
    ∀ (fuel : ℕ) (l : List ((ℤ × ℤ) × Chunk)),
      l.length ≤ MAX_CHUNKS R + fuel → (evictLoop R fuel l).length ≤ MAX_CHUNKS R := by
  intro fuel
  induction fuel with
  | zero =>
    intro l h
    exact h
  | succ f ih =>
    intro l h
    rw [evictLoop]
    by_cases hlen : MAX_CHUNKS R < l.length
    · rw [if_pos hlen]
      have hne : l ≠ [] := by
        intro heq
        rw [heq] at hlen
        simp at hlen
      obtain ⟨e, he⟩ := findMinEntry_some l hne
      rw [he]
      apply ih
      have hmem := (findMinEntry_spec l e he).1
      have herase := List.length_eraseP_add_one hmem
        (p := fun x => decide (x.1 = e.1)) (by simp)
      omega
    · rw [if_neg hlen]
      omega

theorem evict_le (R : ℕ) (l : List ((ℤ × ℤ) × Chunk)) :
    (evict R l).length ≤ MAX_CHUNKS R :=
  evictLoop_le R l.length l (by omega)

theorem evictLoop_sublist (R : ℕ) :
    ∀ (fuel : ℕ) (l : List ((ℤ × ℤ) × Chunk)), (evictLoop R fuel l).Sublist l := by
  intro fuel
  induction fuel with
  | zero => intro l; exact List.Sublist.refl l
  | succ f ih =>
    intro l
    rw [evictLoop]
    by_cases hlen : MAX_CHUNKS R < l.length
    · rw [if_pos hlen]
      cases hfm : findMinEntry l with
      | none => exact List.Sublist.refl l
      | some e => exact (ih _).trans (List.eraseP_sublist l)
    · rw [if_neg hlen]

theorem insertEntry_keys_nodup (k : ℤ × ℤ) (c : Chunk) (l : List ((ℤ × ℤ) × Chunk))
    (h : (l.map Prod.fst).Nodup) : ((insertEntry k c l).map Prod.fst).Nodup := by
  unfold insertEntry
  rw [List.map_cons]
  rw [List.nodup_cons]
  constructor
  · intro hk
    obtain ⟨e, he, hke⟩ := List.mem_map.1 hk
    have hf := List.mem_filter.1 he
    have : e.1 ≠ k := by simpa using hf.2
    exact this hke
  · exact h.sublist ((l.filter_sublist).map Prod.fst)

/-- **C4.** After any sequence of `load` calls starting from a fresh loader,
the cache holds at most `MAX_CHUNKS` entries and at most one chunk per
coordinate key. -/
theorem c4_cache_bound (P : ℕ → ℚ → ℚ → ℚ) (powf : ℚ → ℚ → ℚ) (S R : ℕ) (seed : ℕ)
    (ops : List ((ℤ × ℤ) × ℕ)) :
    (ops.foldl (fun st op => ChunkLoader.load P powf S R st op.1.1 op.1.2 op.2)
        (ChunkLoader.new seed)).cache.length ≤ MAX_CHUNKS R ∧
    ((ops.foldl (fun st op => ChunkLoader.load P powf S R st op.1.1 op.1.2 op.2)
        (ChunkLoader.new seed)).cache.map Prod.fst).Nodup := by
  suffices h : ∀ (l : List ((ℤ × ℤ) × ℕ)) (st : ChunkLoader),
      st.cache.length ≤ MAX_CHUNKS R → (st.cache.map Prod.fst).Nodup →
      (l.foldl (fun st op => ChunkLoader.load P powf S R st op.1.1 op.1.2 op.2)
          st).cache.length ≤ MAX_CHUNKS R ∧
      ((l.foldl (fun st op => ChunkLoader.load P powf S R st op.1.1 op.1.2 op.2)
          st).cache.map Prod.fst).Nodup by
    exact h ops (ChunkLoader.new seed) (Nat.zero_le _) List.nodup_nil
  intro l
  induction l with
  | nil => intro st h1 h2; exact ⟨h1, h2⟩
  | cons op l ih =>
    intro st h1 h2
    rw [List.foldl_cons]
    apply ih
    · rw [load_cache]
      exact evict_le R _
    · rw [load_cache]
      exact (insertEntry_keys_nodup _ _ _ h2).sublist
        ((evictLoop_sublist R _ _).map Prod.fst)

/-- **C5.** When a `load` leaves the cache above capacity, the eviction loop
removes an entry whose `used_time` is globally smallest and stops exactly at
capacity; when the cache is within capacity nothing is evicted. -/
theorem c5_evict_min (P : ℕ → ℚ → ℚ → ℚ) (powf : ℚ → ℚ → ℚ) (S R : ℕ)
    (st : ChunkLoader) (cx cz : ℤ) (t : ℕ)
    (hlen : st.cache.length ≤ MAX_CHUNKS R) :
    ((insertEntry (cx, cz) (chunk_gen P powf S st.seed cx cz t) st.cache).length ≤
        MAX_CHUNKS R →
      (ChunkLoader.load P powf S R st cx cz t).cache =
        insertEntry (cx, cz) (chunk_gen P powf S st.seed cx cz t) st.cache) ∧
    (MAX_CHUNKS R <
        (insertEntry (cx, cz) (chunk_gen P powf S st.seed cx cz t) st.cache).length →
      ∃ e ∈ insertEntry (cx, cz) (chunk_gen P powf S st.seed cx cz t) st.cache,
        (∀ x ∈ insertEntry (cx, cz) (chunk_gen P powf S st.seed cx cz t) st.cache,
          e.2.used_time ≤ x.2.used_time) ∧
        (ChunkLoader.load P powf S R st cx cz t).cache =
          (insertEntry (cx, cz) (chunk_gen P powf S st.seed cx cz t) st.cache).eraseP
            (fun x => decide (x.1 = e.1)) ∧
        (ChunkLoader.load P powf S R st cx cz t).cache.length = MAX_CHUNKS R) := by
  set mid := insertEntry (cx, cz) (chunk_gen P powf S st.seed cx cz t) st.cache with hmid
  have hmidlen : mid.length ≤ MAX_CHUNKS R + 1 := by
    rw [hmid]
    unfold insertEntry
    rw [List.length_cons]
    have := st.cache.length_filter_le (fun e => decide (e.1 ≠ (cx, cz)))
    omega
  constructor
  · intro h
    rw [load_cache, ← hmid, evict, evictLoop_stop R mid.length mid h]
  · intro h
    have hlen1 : mid.length = MAX_CHUNKS R + 1 := by omega
    have hne : mid ≠ [] := by
      intro h0
      rw [h0] at h
      simp at h
    obtain ⟨e, hfm⟩ := findMinEntry_some mid hne
    obtain ⟨hmem, hmin⟩ := findMinEntry_spec mid e hfm
    have herase := List.length_eraseP_add_one hmem
      (p := fun x => decide (x.1 = e.1)) (by simp)
    refine ⟨e, hmem, hmin, ?_, ?_⟩
    · rw [load_cache, ← hmid, evict, hlen1, evictLoop, if_pos (by omega), hfm]
      show evictLoop R (MAX_CHUNKS R)
        (List.eraseP (fun x => decide (x.1 = e.1)) mid) = _
      exact evictLoop_stop R _ _ (by omega)
    · rw [load_cache, ← hmid, evict, hlen1, evictLoop, if_pos (by omega), hfm]
      show (evictLoop R (MAX_CHUNKS R)
        (List.eraseP (fun x => decide (x.1 = e.1)) mid)).length = _
      rw [evictLoop_stop R _ _ (by omega)]
      omega

/-- Witness for C5: the hypothesis is satisfiable (a fresh loader is within
capacity). -/
theorem c5_evict_min_witness :
    (ChunkLoader.new 0).cache.length ≤ MAX_CHUNKS 0 ∧
    (((insertEntry (0, 0) (chunk_gen trivialNoise trivialPow 0 (ChunkLoader.new 0).seed 0 0 0)
          (ChunkLoader.new 0).cache).length ≤ MAX_CHUNKS 0 →
        (ChunkLoader.load trivialNoise trivialPow 0 0 (ChunkLoader.new 0) 0 0 0).cache =
          insertEntry (0, 0) (chunk_gen trivialNoise trivialPow 0 (ChunkLoader.new 0).seed 0 0 0)
            (ChunkLoader.new 0).cache) ∧
      (MAX_CHUNKS 0 <
          (insertEntry (0, 0) (chunk_gen trivialNoise trivialPow 0 (ChunkLoader.new 0).seed 0 0 0)
            (ChunkLoader.new 0).cache).length →
        ∃ e ∈ insertEntry (0, 0)
            (chunk_gen trivialNoise trivialPow 0 (ChunkLoader.new 0).seed 0 0 0)
            (ChunkLoader.new 0).cache,
          (∀ x ∈ insertEntry (0, 0)
              (chunk_gen trivialNoise trivialPow 0 (ChunkLoader.new 0).seed 0 0 0)
              (ChunkLoader.new 0).cache,
            e.2.used_time ≤ x.2.used_time) ∧
          (ChunkLoader.load trivialNoise trivialPow 0 0 (ChunkLoader.new 0) 0 0 0).cache =
            (insertEntry (0, 0)
              (chunk_gen trivialNoise trivialPow 0 (ChunkLoader.new 0).seed 0 0 0)
              (ChunkLoader.new 0).cache).eraseP (fun x => decide (x.1 = e.1)) ∧
          (ChunkLoader.load trivialNoise trivialPow 0 0 (ChunkLoader.new 0) 0 0 0).cache.length =
            MAX_CHUNKS 0)) :=
  ⟨Nat.zero_le _,
    c5_evict_min trivialNoise trivialPow 0 0 (ChunkLoader.new 0) 0 0 0 (Nat.zero_le _)⟩

/-- **C8.** `load` always regenerates and overwrites: right after insertion
the cache maps the coordinate to the freshly generated chunk, and under a
monotone clock a repeated `load` of the same coordinate leaves the cache in
the same state apart from timestamps. -/
theorem c8_load_overwrites (P : ℕ → ℚ → ℚ → ℚ) (powf : ℚ → ℚ → ℚ) (S R : ℕ)
    (st : ChunkLoader) (cx cz : ℤ) (t1 t2 : ℕ)
    (hlen : st.cache.length ≤ MAX_CHUNKS R)
    (htime : ∀ e ∈ st.cache, e.2.used_time < t1) :
    (cacheLookup (insertEntry (cx, cz) (chunk_gen P powf S st.seed cx cz t1) st.cache)
        (cx, cz) = some (chunk_gen P powf S st.seed cx cz t1)) ∧
    ((ChunkLoader.load P powf S R (ChunkLoader.load P powf S R st cx cz t1) cx cz t2).cache.map
        (fun e => (e.1, e.2.data)) =
      (ChunkLoader.load P powf S R st cx cz t1).cache.map (fun e => (e.1, e.2.data))) := by
  constructor
  · unfold cacheLookup insertEntry
    rw [List.find?_cons_of_pos _ (by simp)]
    rfl
  · set k := ((cx, cz) : ℤ × ℤ) with hk
    set c1 := chunk_gen P powf S st.seed cx cz t1 with hc1
    set rest := st.cache.filter (fun e => decide (e.1 ≠ k)) with hrest
    have hmid1 : insertEntry k c1 st.cache = (k, c1) :: rest := rfl
    have hrest_ne : ∀ e ∈ rest, e.1 ≠ k := by
      intro e he
      have hf := List.mem_filter.1 he
      simpa using hf.2
    have hrest_time : ∀ e ∈ rest, e.2.used_time < t1 :=
      fun e he => htime e (List.mem_filter.1 he).1
    have hrest_len : rest.length ≤ st.cache.length := st.cache.length_filter_le _
    have hload1 : (ChunkLoader.load P powf S R st cx cz t1).cache =
        evict R ((k, c1) :: rest) := by
      rw [load_cache, hmid1]
    by_cases hA : ((k, c1) :: rest).length ≤ MAX_CHUNKS R
    · -- within capacity: the first load evicts nothing
      have hc1cache : (ChunkLoader.load P powf S R st cx cz t1).cache = (k, c1) :: rest := by
        rw [hload1, evict, evictLoop_stop R _ _ hA]
      have hmid2 : insertEntry k (chunk_gen P powf S st.seed cx cz t2) ((k, c1) :: rest) =
          (k, chunk_gen P powf S st.seed cx cz t2) :: rest := by
        unfold insertEntry
        rw [List.filter_cons_of_neg (by simp),
          List.filter_eq_self.2 (fun e he => by simpa using hrest_ne e he)]
      have hload2 : (ChunkLoader.load P powf S R (ChunkLoader.load P powf S R st cx cz t1)
          cx cz t2).cache = evict R ((k, chunk_gen P powf S st.seed cx cz t2) :: rest) := by
        rw [load_cache, hc1cache]
        rw [show (ChunkLoader.load P powf S R st cx cz t1).seed = st.seed from rfl, hmid2]
      rw [hload2, evict,
        evictLoop_stop R _ _ (by simp only [List.length_cons] at hA ⊢; exact hA), hc1cache]
      rfl
    · -- over capacity: the first load evicts one minimal old entry
      have hlen1 : ((k, c1) :: rest).length = MAX_CHUNKS R + 1 := by
        simp only [List.length_cons] at hA ⊢
        omega
      obtain ⟨e, hfm⟩ := findMinEntry_some ((k, c1) :: rest) (by simp)
      obtain ⟨hmem, hmin⟩ := findMinEntry_spec _ e hfm
      rcases hre : rest with _ | ⟨r, rest2⟩
      · -- the cache was empty and the capacity is zero: both loads leave it empty
        rw [hre] at hlen1
        have hMAX0 : MAX_CHUNKS R = 0 := by
          simp only [List.length_cons, List.length_nil] at hlen1
          omega
        have hev1 : ∀ (kk : ℤ × ℤ) (cc : Chunk), evict R [(kk, cc)] = [] := by
          intro kk cc
          rw [evict]
          show evictLoop R 1 [(kk, cc)] = []
          rw [evictLoop, if_pos (by rw [hMAX0]; simp)]
          rw [show findMinEntry [(kk, cc)] = some (kk, cc) from rfl]
          show evictLoop R 0
            (List.eraseP (fun x => decide (x.1 = (kk, cc).1)) [(kk, cc)]) = []
          rw [List.eraseP_cons_of_pos (by simp)]
          rfl
        have hc1cache : (ChunkLoader.load P powf S R st cx cz t1).cache = [] := by
          rw [hload1, hre, hev1]
        have hload2 : (ChunkLoader.load P powf S R (ChunkLoader.load P powf S R st cx cz t1)
            cx cz t2).cache = evict R [(k, chunk_gen P powf S st.seed cx cz t2)] := by
          rw [load_cache, hc1cache]
          rfl
        rw [hload2, hev1, hc1cache]
      · -- the cache held an older entry, which is the one evicted
        have hrne : rest ≠ [] := by rw [hre]; exact List.cons_ne_nil r rest2
        have hrmem : r ∈ rest := by rw [hre]; exact List.mem_cons_self ..
        have hemem_rest : e ∈ rest := by
          rcases List.mem_cons.1 hmem with he | hm
          · exfalso
            have h1 : e.2.used_time ≤ r.2.used_time :=
              hmin r (List.mem_cons_of_mem _ hrmem)
            have h2 : r.2.used_time < t1 := hrest_time r hrmem
            have h3 : e.2.used_time = t1 := by
              rw [he, hc1]
              rfl
            omega
          · exact hm
        have hek : e.1 ≠ k := hrest_ne e hemem_rest
        have herase : (rest.eraseP (fun x => decide (x.1 = e.1))).length + 1 =
            rest.length := List.length_eraseP_add_one hemem_rest (by simp)
        have herase1 : (((k, c1) :: rest).eraseP (fun x => decide (x.1 = e.1))) =
            (k, c1) :: rest.eraseP (fun x => decide (x.1 = e.1)) := by
          rw [List.eraseP_cons_of_neg (by simp [hek.symm])]
        have hc1cache : (ChunkLoader.load P powf S R st cx cz t1).cache =
            (k, c1) :: rest.eraseP (fun x => decide (x.1 = e.1)) := by
          rw [hload1, evict, hlen1, evictLoop, if_pos (by omega), hfm]
          show evictLoop R (MAX_CHUNKS R)
            (List.eraseP (fun x => decide (x.1 = e.1)) ((k, c1) :: rest)) = _
          rw [herase1]
          refine evictLoop_stop R _ _ ?_
          rw [List.length_cons]
          omega
        have hrest2_ne : ∀ x ∈ rest.eraseP (fun x => decide (x.1 = e.1)), x.1 ≠ k :=
          fun x hx => hrest_ne x ((rest.eraseP_sublist).mem hx)
        have hmid2 : insertEntry k (chunk_gen P powf S st.seed cx cz t2)
            ((k, c1) :: rest.eraseP (fun x => decide (x.1 = e.1))) =
            (k, chunk_gen P powf S st.seed cx cz t2) ::
              rest.eraseP (fun x => decide (x.1 = e.1)) := by
          unfold insertEntry
          rw [List.filter_cons_of_neg (by simp),
            List.filter_eq_self.2 (fun x hx => by simpa using hrest2_ne x hx)]
        have hload2 : (ChunkLoader.load P powf S R (ChunkLoader.load P powf S R st cx cz t1)
            cx cz t2).cache = evict R ((k, chunk_gen P powf S st.seed cx cz t2) ::
              rest.eraseP (fun x => decide (x.1 = e.1))) := by
          rw [load_cache, hc1cache]
          rw [show (ChunkLoader.load P powf S R st cx cz t1).seed = st.seed from rfl, hmid2]
        rw [hload2, evict,
          evictLoop_stop R _ _ (by rw [List.length_cons]; omega), hc1cache]
        rfl

/-- Witness for C8: the hypotheses are satisfiable (a fresh empty loader and
any timestamps). -/
theorem c8_load_overwrites_witness :
    ((ChunkLoader.new 0).cache.length ≤ MAX_CHUNKS 1 ∧
      (∀ e ∈ (ChunkLoader.new 0).cache, e.2.used_time < 1)) ∧
    ((cacheLookup (insertEntry (0, 0)
          (chunk_gen trivialNoise trivialPow 1 (ChunkLoader.new 0).seed 0 0 1)
          (ChunkLoader.new 0).cache) (0, 0) =
        some (chunk_gen trivialNoise trivialPow 1 (ChunkLoader.new 0).seed 0 0 1)) ∧
      ((ChunkLoader.load trivialNoise trivialPow 1 1
          (ChunkLoader.load trivialNoise trivialPow 1 1 (ChunkLoader.new 0) 0 0 1)
          0 0 2).cache.map (fun e => (e.1, e.2.data)) =
        (ChunkLoader.load trivialNoise trivialPow 1 1 (ChunkLoader.new 0) 0 0 1).cache.map
          (fun e => (e.1, e.2.data)))) :=
  ⟨⟨Nat.zero_le _, fun e he => absurd he (List.not_mem_nil e)⟩,
    c8_load_overwrites trivialNoise trivialPow 1 1 (ChunkLoader.new 0) 0 0 1 2
      (Nat.zero_le _) (fun e he => absurd he (List.not_mem_nil e))⟩

end Cubeland
